import Mathlib

/-!
# Host port mapping of hyperd (`networking/portmapping/host_portmapping_linux.go`)

A shallow embedding of the parsers `NewPortRange` / `NewPortMapping`, of the
rule generator `generateIptablesArgs` and of the orchestrator `SetupPortMaps` /
`ReleasePortMaps`, with the properties of the design document stated and
proved over it.

Conventions of the embedding.

* Go's `int` (linux/amd64) is an `Int` between `minInt` and `maxInt`; a
  subtraction that may leave that interval is wrapped with `wrapInt`, and a loop
  counter that would leave it makes the embedded loop return `none`.
* `*PortMapping` and `*PortRange` are modelled as values: a function that
  writes through the pointer returns the updated mapping next to its results.
  The pointers are taken to be non-nil and pairwise distinct.
* The packages `iptables` and `portmapper` are not part of the translated file;
  they are modelled from the design document, each definition saying so.
-/

namespace Portmapping

/-! ## Go integers and strings -/

/-- Largest value of Go's 64-bit `int`. -/
def maxInt : Int := 9223372036854775807

/-- Smallest value of Go's 64-bit `int`. -/
def minInt : Int := -9223372036854775808

/-- The value is representable as a Go `int`. -/
def isInt (x : Int) : Prop := minInt ≤ x ∧ x ≤ maxInt

instance (x : Int) : Decidable (isInt x) := by unfold isInt; infer_instance

/-- Two's-complement wrap-around of an arithmetic result into Go's `int`. -/
def wrapInt (x : Int) : Int := (x + 9223372036854775808) % 18446744073709551616 - 9223372036854775808

/-- Go's `strconv.Itoa` (and the verb `%d` on an `int`): decimal digits, with a
leading minus sign for a negative number. -/
def Itoa (n : Int) : String := toString n

/-- ASCII lower-casing of one character. -/
def lowerASCII (c : Char) : Char :=
  if 65 ≤ c.toNat ∧ c.toNat ≤ 90 then Char.ofNat (c.toNat + 32) else c

/-- Go's `strings.EqualFold`, by ASCII case folding. The program only compares
with `"udp"`, whose three letters have no case variant outside ASCII, so for
these calls the ASCII folding coincides with Unicode simple folding. -/
def EqualFold (s t : String) : Bool :=
  s.data.map lowerASCII == t.data.map lowerASCII

/-- Go's `net.JoinHostPort`: the host is put in brackets when it contains a
colon. (Earlier releases of Go did so for a percent sign as well; the
properties below that depend on the joined text are stated for hosts with
neither character.) -/
def JoinHostPort (host port : String) : String :=
  if host.data.contains ':' then "[" ++ host ++ "]:" ++ port
  else host ++ ":" ++ port

/-! ## Data model -/

/-- The type `PortRange struct { Begin int; End int }`. -/
structure PortRange where
  Begin : Int
  End : Int
deriving DecidableEq, Repr

/-- The type `PortMapping struct { Protocol string; ToPorts, FromPorts *PortRange }`. -/
structure PortMapping where
  Protocol : String
  ToPorts : PortRange
  FromPorts : PortRange
deriving DecidableEq, Repr

/-- Errors of the program and of its collaborators. -/
inductive Error where
  /-- An error built by `fmt.Errorf`, with its message. -/
  | errorf (msg : String)
  /-- The value `&iptables.ChainError{Chain, Output}`. -/
  | chainError (chain : String) (output : String)
  /-- An error reported by the rule engine, with its message. -/
  | engine (msg : String)
  /-- The allocation table refusing a key that is already present. -/
  | alreadyAllocated (protocol : String) (hostPort : Int)
  /-- The allocation table reporting the release of an absent key. -/
  | notAllocated (protocol : String) (hostPort : Int)
  /-- The value `&strconv.NumError{Func, Num, Err}`, where `Err` is
  `strconv.ErrRange` when `outOfRange` holds and `strconv.ErrSyntax` otherwise. -/
  | numError (func : String) (num : String) (outOfRange : Bool)
deriving DecidableEq, Repr

/-- The text Go's `strconv.Quote` writes for one character: a backslash escape
for the double quote, the backslash and the control characters, the character
itself otherwise. A character outside ASCII is taken to be printable. -/
def quoteChar (c : Char) : List Char :=
  if c.toNat = 34 then [Char.ofNat 92, Char.ofNat 34]
  else if c.toNat = 92 then [Char.ofNat 92, Char.ofNat 92]
  else if c.toNat = 7 then [Char.ofNat 92, 'a']
  else if c.toNat = 8 then [Char.ofNat 92, 'b']
  else if c.toNat = 12 then [Char.ofNat 92, 'f']
  else if c.toNat = 10 then [Char.ofNat 92, 'n']
  else if c.toNat = 13 then [Char.ofNat 92, 'r']
  else if c.toNat = 9 then [Char.ofNat 92, 't']
  else if c.toNat = 11 then [Char.ofNat 92, 'v']
  else if c.toNat < 32 ∨ c.toNat = 127 then
    [Char.ofNat 92, 'x', Nat.digitChar (c.toNat / 16), Nat.digitChar (c.toNat % 16)]
  else [c]

/-- Go's `strconv.Quote`: the text between double quotes, each character
written by `quoteChar`. -/
def Quote (s : String) : String :=
  ⟨Char.ofNat 34 :: (s.data.flatMap quoteChar ++ [Char.ofNat 34])⟩

/-- The text `err.Error()` of an error, as the verb `%s` prints it. The errors
of the absent packages are rendered by the names the design document gives
them. -/
def Error.message : Error → String
  | .errorf msg => msg
  | .chainError chain output => "ChainError " ++ chain ++ ": " ++ output
  | .engine msg => msg
  | .alreadyAllocated _ _ => "AlreadyAllocated"
  | .notAllocated _ _ => "NotAllocated"
  | .numError func num outOfRange =>
      "strconv." ++ func ++ ": parsing " ++ Quote num ++ ": " ++
        (if outOfRange then "value out of range" else "invalid syntax")

/-- What `fmt` prints for a `*PortRange` under the verbs `%d` and `%v`: an
ampersand and the two fields in braces, separated by a blank. -/
def PortRange.fmt (r : PortRange) : String :=
  "&\x7b" ++ Itoa r.Begin ++ " " ++ Itoa r.End ++ "\x7d"

/-! ## Parsing -/

/-- Go's `strings.SplitN(s, sep, 2)` for a separator of one character: the text
before the first separator and the text after it, or the whole text when it
holds no separator. -/
def SplitN2 (s : String) (sep : Char) : List String :=
  match s.data.span (fun c => c != sep) with
  | (a, []) => [⟨a⟩]
  | (a, _ :: b) => [⟨a⟩, ⟨b⟩]

/-- The loop of `strconv.ParseUint` for base 10 over the bytes of the text: a
character other than a decimal digit is a syntax error, a number above
`maxVal` (or one whose next multiplication would leave 64 bits) is a range
error. -/
def parseUintLoop (maxVal : Nat) (s0 : String) : List Char → Nat → Nat × Option Error
  | [], n => (n, none)
  | c :: cs, n =>
    if 48 ≤ c.toNat ∧ c.toNat ≤ 57 then
      let d := c.toNat - 48
      if n ≥ 18446744073709551615 / 10 + 1 then
        (maxVal, some (.numError "ParseUint" s0 true))
      else
        let n10 := (n * 10) % 18446744073709551616
        let n1 := (n10 + d) % 18446744073709551616
        if n1 < n10 ∨ n1 > maxVal then (maxVal, some (.numError "ParseUint" s0 true))
        else parseUintLoop maxVal s0 cs n1
    else (0, some (.numError "ParseUint" s0 false))

/-- Go's `strconv.ParseUint(s, 10, bitSize)` for a `bitSize` from 1 to 64: the
value and the error. -/
def ParseUint (s : String) (bitSize : Nat) : Nat × Option Error :=
  if s = "" then (0, some (.numError "ParseUint" s false))
  else parseUintLoop (2 ^ bitSize - 1) s s.data 0

/-- The function `NewPortRange`: the range (nil on error) and the error. -/
def NewPortRange (r : String) : Option PortRange × Option Error :=
  let segs := SplitN2 r '-'
  match ParseUint (segs.getD 0 "") 16 with
  | (_, some err) => (none, some err)
  | (b, none) =>
    if segs.length > 1 then
      match ParseUint (segs.getD 1 "") 16 with
      | (_, some err) => (none, some err)
      | (e, none) => (some ⟨(b : Int), (e : Int)⟩, none)
    else (some ⟨(b : Int), (b : Int)⟩, none)

/-- The function `NewPortMapping`: the mapping (nil on error) and the error. -/
def NewPortMapping (proto from_ to_ : String) : Option PortMapping × Option Error :=
  let proto := if proto = "" then "tcp" else proto
  if proto ≠ "tcp" ∧ proto ≠ "udp" then
    (none, some (.errorf ("unsupported protocol " ++ proto)))
  else
    match NewPortRange from_ with
    | (_, some err) => (none, some err)
    | (none, none) => (none, none)
    | (some f, none) =>
      match NewPortRange to_ with
      | (_, some err) => (none, some err)
      | (none, none) => (none, none)
      | (some t, none) => (some ⟨proto, t, f⟩, none)

/-! ## Rule generation -/

/-- The function `generateIptablesArgs`. The result is the triple the Go
function returns (redirect arguments, forwarding-permit arguments, error)
together with the mapping as the call leaves it: the function writes
`End = Begin` through `m.FromPorts` and `m.ToPorts` when it reads a single
port. -/
def generateIptablesArgs (containerip : String) (m : PortMapping) :
    (List String × List String × Option Error) × PortMapping :=
  let proto := if EqualFold m.Protocol "udp" then "udp" else "tcp"
  let fromStep : Option (String × PortRange) :=
    if m.FromPorts.End = 0 ∨ m.FromPorts.End = m.FromPorts.Begin then
      some (Itoa m.FromPorts.Begin, { m.FromPorts with End := m.FromPorts.Begin })
    else if m.FromPorts.End > m.FromPorts.Begin then
      some (m.FromPorts.fmt ++ ":" ++ Itoa m.FromPorts.End, m.FromPorts)
    else none
  match fromStep with
  | none =>
    (([], [], some (.errorf ("invalid from port range " ++ Itoa m.FromPorts.Begin ++ "-"
        ++ Itoa m.FromPorts.End))), m)
  | some (from_, fromPorts) =>
    let m1 : PortMapping := { m with FromPorts := fromPorts }
    let toStep : Option (String × PortRange) :=
      if m1.ToPorts.End = 0 ∨ m1.ToPorts.End = m1.ToPorts.Begin then
        some (JoinHostPort containerip (Itoa m1.ToPorts.Begin),
              { m1.ToPorts with End := m1.ToPorts.Begin })
      else if m1.ToPorts.End > m1.ToPorts.Begin then
        some (JoinHostPort containerip (m1.ToPorts.fmt ++ "-" ++ Itoa m1.ToPorts.End),
              m1.ToPorts)
      else none
    match toStep with
    | none =>
      (([], [], some (.errorf ("invalid to port range " ++ Itoa m1.ToPorts.Begin ++ "-"
          ++ Itoa m1.ToPorts.End))), m1)
    | some (to_, toPorts) =>
      let m2 : PortMapping := { m1 with ToPorts := toPorts }
      -- we may map ports 1:N or N:N, but not M:N (M!=1, M!=N)
      let hostRange := wrapInt (m2.FromPorts.End - m2.FromPorts.Begin)
      let containerRange := wrapInt (m2.ToPorts.End - m2.ToPorts.Begin)
      if hostRange ≠ 0 ∧ hostRange ≠ containerRange then
        (([], [], some (.errorf ("range mismatch, cannot map ports " ++ from_ ++ " to " ++ to_))),
          m2)
      else
        let natArgs := ["-p", proto, "-m", proto, "--dport", from_, "-j", "DNAT",
          "--to-destination", to_]
        let filterArgs := ["-d", containerip, "-p", proto, "-m", proto, "--dport", to_,
          "-j", "ACCEPT"]
        ((natArgs, filterArgs, none), m2)

/-! ## Collaborators: the allocation table and the rule engine -/

/-- Modelled from the spec: the allocation table of package `portmapper`, which
is not among the translated sources: a process-wide mapping from
`(protocol, hostPort)` to `(containerIP, containerPort)` with at most one entry
per key. -/
structure PortMapper where
  table : String → Int → Option (String × Int)

/-- Modelled from the spec: `portmapper.New()`, the empty allocation table. -/
def PortMapper.New : PortMapper := ⟨fun _ _ => none⟩

/-- Modelled from the spec: the operation `allocate(protocol, hostPort,
containerIP, containerPort) -> () | Error(AlreadyAllocated)` of the absent
package `portmapper`; an attempt on a key that is already present fails without
mutating the table. -/
def PortMapper.AllocateMap (p : PortMapper) (protocol : String) (hostPort : Int)
    (containerIP : String) (containerPort : Int) : Option Error × PortMapper :=
  match p.table protocol hostPort with
  | some _ => (some (.alreadyAllocated protocol hostPort), p)
  | none =>
    (none, ⟨fun pr h =>
      if pr = protocol ∧ h = hostPort then some (containerIP, containerPort) else p.table pr h⟩)

/-- Modelled from the spec: the operation `release(protocol, hostPort) -> () |
Error(NotAllocated)` of the absent package `portmapper`; it removes the entry
of the key, and reports an absent key. -/
def PortMapper.ReleaseMap (p : PortMapper) (protocol : String) (hostPort : Int) :
    Option Error × PortMapper :=
  match p.table protocol hostPort with
  | none => (some (.notAllocated protocol hostPort), p)
  | some _ =>
    (none, ⟨fun pr h => if pr = protocol ∧ h = hostPort then none else p.table pr h⟩)

/-- The two actions `iptables.Insert` and `iptables.Delete`. -/
inductive Action where
  | Insert
  | Delete
deriving DecidableEq, Repr

/-- Modelled from the spec: the state of the rule engine behind the absent
package `iptables`: the rules (argument lists) of the single redirect chain and
of the single forwarding chain, both named `HYPER`, the most recently inserted
rule first. -/
structure Chains where
  nat : List (List String)
  filter : List (List String)
deriving DecidableEq, Repr

/-- Modelled from the spec: what the rule engine decides on its own account:
the error, if any, with which it refuses `insertRule` / `deleteRule` and
`runRaw`, the output it prints for a raw command it runs, and its answer to
`portUsedInChain`. Every property below is stated for an arbitrary engine. -/
structure RuleEngine where
  operateError : Chains → Action → String → List String → Option Error
  rawError : Chains → List String → Option Error
  rawOutput : Chains → List String → String
  portUsed : Chains → String → String → Int → Int → Bool

/-- Modelled from the spec: `ruleExists(chain, args) -> bool` of the absent
package `iptables`: the rule is one of the rules of the redirect chain. -/
def PortMapExists (_chain : String) (rule : List String) (c : Chains) : Bool :=
  c.nat.contains rule

/-- Modelled from the spec: `portUsedInChain(chain, protocol, portBegin,
portEnd) -> bool` of the absent package `iptables`, answered by the engine. -/
def PortMapUsed (eng : RuleEngine) (chain : String) (proto : String) (b e : Int)
    (c : Chains) : Bool :=
  eng.portUsed c chain proto b e

/-- Modelled from the spec: `insertRule(chain, args)` and `deleteRule(chain,
args)` of the absent package `iptables`, on the redirect chain: a refused
operation leaves the chain as it is, an insertion puts the rule at the head,
and a deletion removes the first rule equal to it. -/
def OperatePortMap (eng : RuleEngine) (action : Action) (chain : String)
    (rule : List String) (c : Chains) : Option Error × Chains :=
  match eng.operateError c action chain rule with
  | some e => (some e, c)
  | none =>
    match action with
    | .Insert => (none, { c with nat := rule :: c.nat })
    | .Delete => (none, { c with nat := c.nat.erase rule })

/-- Modelled from the spec: `runRaw(args...) -> (output, Error)` of the absent
package `iptables`, on the forwarding chain: `-I HYPER rule` inserts the rule
at the head, `-D HYPER rule` removes the first rule equal to it, and a refused
command changes nothing. -/
def Raw (eng : RuleEngine) (args : List String) (c : Chains) :
    (String × Option Error) × Chains :=
  match eng.rawError c args with
  | some e => (("", some e), c)
  | none =>
    match args with
    | "-I" :: "HYPER" :: rule => ((eng.rawOutput c args, none), { c with filter := rule :: c.filter })
    | "-D" :: "HYPER" :: rule =>
      ((eng.rawOutput c args, none), { c with filter := c.filter.erase rule })
    | _ => ((eng.rawOutput c args, none), c)

/-- The state the orchestrator acts on: the package variable `PortMapper` and
the chains of the rule engine. -/
structure World where
  portMapper : PortMapper
  chains : Chains

/-! ## Setup -/

/-- The allocation loop of `SetupPortMaps`:
`for i <= m.FromPorts.End { if err = AllocateMap(..., i, ..., j); err != nil { return err }; i++; j++ }`.
The result is the error of the failing allocation (if any), the value of `i` on
leaving the loop, and the table; `none` when `i++` would wrap around. -/
def allocLoop (protocol containerip : String) (End : Int) (i j : Int) (pm : PortMapper) :
    Option (Option Error × Int × PortMapper) :=
  if i ≤ End then
    match pm.AllocateMap protocol i containerip j with
    | (some err, pm1) => some (some err, i, pm1)
    | (none, pm1) =>
      if i = maxInt then none
      else allocLoop protocol containerip End (i + 1) (wrapInt (j + 1)) pm1
  else some (none, i, pm)
termination_by (End + 1 - i).toNat
decreasing_by omega

/-- The loop of the deferred function of `SetupPortMaps`:
`for i >= m.FromPorts.Begin { PortMapper.ReleaseMap(m.Protocol, i); i-- }`;
`none` when `i--` would wrap around. -/
def rollbackLoop (protocol : String) (Begin : Int) (i : Int) (pm : PortMapper) :
    Option PortMapper :=
  if i ≥ Begin then
    if i = minInt then none
    else rollbackLoop protocol Begin (i - 1) (pm.ReleaseMap protocol i).2
  else some pm
termination_by (i + 1 - Begin).toNat
decreasing_by omega

/-- The deferred function of one iteration of `SetupPortMaps`, run when the
function returns: `if err != nil { i--; for i >= m.FromPorts.Begin { ... } }`. -/
def deferredRollback (err : Option Error) (protocol : String) (Begin : Int) (i : Int)
    (pm : PortMapper) : Option PortMapper :=
  match err with
  | none => some pm
  | some _ => if i = minInt then none else rollbackLoop protocol Begin (i - 1) pm

/-- The loop `for _, m := range maps` of `SetupPortMaps`. The result is the
returned error, the mappings as the call leaves them and the state. The
deferred functions of the iterations that completed find their own `err` nil
and do nothing; the one of the iteration that returns is `deferredRollback`. -/
def setupLoop (eng : RuleEngine) (containerip : String) :
    List PortMapping → World → Option (Option Error × List PortMapping × World)
  | [], w => some (none, [], w)
  | m0 :: rest, w =>
    let r := generateIptablesArgs containerip m0
    let natArgs := r.1.1
    let filterArgs := r.1.2.1
    let m := r.2
    match r.1.2.2 with
    | some err => some (some err, m :: rest, w)
    | none =>
      -- check if this rule has already existed
      if PortMapExists "HYPER" natArgs w.chains then some (none, m :: rest, w)
      else if PortMapUsed eng "HYPER" m.Protocol m.FromPorts.Begin m.FromPorts.End w.chains then
        some (some (.errorf ("Host port " ++ m.FromPorts.fmt ++ " has aleady been used")),
          m :: rest, w)
      else
        match OperatePortMap eng .Insert "HYPER" natArgs w.chains with
        | (some err, c1) => some (some err, m :: rest, { w with chains := c1 })
        | (none, c1) =>
          match Raw eng ("-I" :: "HYPER" :: filterArgs) c1 with
          | ((_, some err), c2) =>
            some (some (.errorf ("Unable to setup forward rule in HYPER chain: " ++ err.message)),
              m :: rest, { w with chains := c2 })
          | ((output, none), c2) =>
            if output.length ≠ 0 then
              some (some (.chainError "HYPER" output), m :: rest, { w with chains := c2 })
            else
              match allocLoop m.Protocol containerip m.FromPorts.End m.FromPorts.Begin
                  m.ToPorts.Begin w.portMapper with
              | none => none
              | some (some err, i, pm) =>
                match deferredRollback (some err) m.Protocol m.FromPorts.Begin i pm with
                | none => none
                | some pm1 => some (some err, m :: rest, ⟨pm1, c2⟩)
              | some (none, _, pm) =>
                match setupLoop eng containerip rest ⟨pm, c2⟩ with
                | none => none
                | some (err, rest1, w1) => some (err, m :: rest1, w1)

/-- The function `SetupPortMaps`; `disableIptables` is the package variable of
that name. -/
def SetupPortMaps (disableIptables : Bool) (eng : RuleEngine) (containerip : String)
    (maps : List PortMapping) (w : World) : Option (Option Error × List PortMapping × World) :=
  if disableIptables || maps.length == 0 then some (none, maps, w)
  else setupLoop eng containerip maps w

/-! ## Teardown -/

/-- The release loop of `ReleasePortMaps`:
`for i := m.FromPorts.Begin; i <= m.FromPorts.End; i++ { ReleaseMap(m.Protocol, i) }`,
the error of a release being ignored; `none` when `i++` would wrap around. -/
def releaseLoop (protocol : String) (End : Int) (i : Int) (pm : PortMapper) : Option PortMapper :=
  if i ≤ End then
    if i = maxInt then none
    else releaseLoop protocol End (i + 1) (pm.ReleaseMap protocol i).2
  else some pm
termination_by (End + 1 - i).toNat
decreasing_by omega

/-- The loop `for _, m := range maps` of `ReleasePortMaps`: the mappings as the
call leaves them and the state. -/
def releaseMapsLoop (eng : RuleEngine) (containerip : String) :
    List PortMapping → World → Option (List PortMapping × World)
  | [], w => some ([], w)
  | m0 :: rest, w =>
    let m1 : PortMapping := if !EqualFold m0.Protocol "udp" then { m0 with Protocol := "tcp" } else m0
    let m2 : PortMapping :=
      if m1.FromPorts.End = 0 then { m1 with FromPorts := { m1.FromPorts with End := m1.FromPorts.Begin } }
      else m1
    match releaseLoop m2.Protocol m2.FromPorts.End m2.FromPorts.Begin w.portMapper with
    | none => none
    | some pm =>
      let r := generateIptablesArgs containerip m2
      let natArgs := r.1.1
      let filterArgs := r.1.2.1
      let m := r.2
      match r.1.2.2 with
      | some _ =>
        match releaseMapsLoop eng containerip rest ⟨pm, w.chains⟩ with
        | none => none
        | some (rest1, w1) => some (m :: rest1, w1)
      | none =>
        let c1 := (OperatePortMap eng .Delete "HYPER" natArgs w.chains).2
        let c2 := (Raw eng ("-D" :: "HYPER" :: filterArgs) c1).2
        match releaseMapsLoop eng containerip rest ⟨pm, c2⟩ with
        | none => none
        | some (rest1, w1) => some (m :: rest1, w1)

/-- The function `ReleasePortMaps`: the returned error, the mappings as the
call leaves them and the state. -/
def ReleasePortMaps (disableIptables : Bool) (eng : RuleEngine) (containerip : String)
    (maps : List PortMapping) (w : World) : Option (Option Error × List PortMapping × World) :=
  if disableIptables || maps.length == 0 then some (none, maps, w)
  else
    match releaseMapsLoop eng containerip maps w with
    | none => none
    | some (maps1, w1) => some (none, maps1, w1)

/-- The upper end of a range as the program reads it: an `End` of 0 stands for
`Begin`. -/
def PortRange.endOrBegin (r : PortRange) : Int := if r.End = 0 then r.Begin else r.End

/-- All four port fields of the mapping are Go `int` values. -/
def PortMapping.isInts (m : PortMapping) : Prop :=
  isInt m.FromPorts.Begin ∧ isInt m.FromPorts.End ∧ isInt m.ToPorts.Begin ∧ isInt m.ToPorts.End

instance (m : PortMapping) : Decidable m.isInts := by unfold PortMapping.isInts; infer_instance

/-- The table after the host ports `b..e` of a protocol have been allocated, in
lockstep, to the container ports from `jb` upward. -/
def PortMapper.withRange (pm : PortMapper) (protocol containerip : String) (b e jb : Int) :
    PortMapper :=
  ⟨fun pr h =>
    if pr = protocol ∧ b ≤ h ∧ h ≤ e then some (containerip, jb + (h - b)) else pm.table pr h⟩

/-- The table after the host ports `b..e` of a protocol have been released. -/
def PortMapper.withoutRange (pm : PortMapper) (protocol : String) (b e : Int) : PortMapper :=
  ⟨fun pr h => if pr = protocol ∧ b ≤ h ∧ h ≤ e then none else pm.table pr h⟩

/-- The port fields are Go `int` values and the counters of the loops over the
host range can step one past either end of it without wrapping around. Every
mapping of port numbers (0 to 65535) satisfies this. -/
def PortMapping.countersFit (m : PortMapping) : Prop :=
  m.isInts ∧ minInt < m.FromPorts.Begin ∧ m.FromPorts.endOrBegin < maxInt

instance (m : PortMapping) : Decidable m.countersFit := by
  unfold PortMapping.countersFit; infer_instance

/-- The rule engine installs both rules of a mapping on the chains `c`: it
refuses neither the insertion of the redirect rule nor the raw insertion of the
forwarding-permit rule, and prints nothing for the latter. -/
def installsRules (eng : RuleEngine) (natArgs filterArgs : List String) (c : Chains) : Prop :=
  eng.operateError c .Insert "HYPER" natArgs = none ∧
  eng.rawError { c with nat := natArgs :: c.nat } ("-I" :: "HYPER" :: filterArgs) = none ∧
  eng.rawOutput { c with nat := natArgs :: c.nat } ("-I" :: "HYPER" :: filterArgs) = ""

instance (eng : RuleEngine) (natArgs filterArgs : List String) (c : Chains) :
    Decidable (installsRules eng natArgs filterArgs c) := by
  unfold installsRules; infer_instance

/-- The mapping as a successful `generateIptablesArgs` leaves it: both `End`
fields read, an `End` of 0 replaced by `Begin`. -/
def PortMapping.normalized (m : PortMapping) : PortMapping :=
  ⟨m.Protocol, ⟨m.ToPorts.Begin, m.ToPorts.endOrBegin⟩,
    ⟨m.FromPorts.Begin, m.FromPorts.endOrBegin⟩⟩

/-- The chains after the two rules of a mapping have been inserted. -/
def Chains.withRules (c : Chains) (natArgs filterArgs : List String) : Chains :=
  ⟨natArgs :: c.nat, filterArgs :: c.filter⟩

/-- A rule engine for the examples: it refuses nothing and prints nothing, and
it reports a host range as used when a rule of the redirect chain names the
protocol and matches, as its destination port, one of the ports of the range. -/
def quietEngine : RuleEngine where
  operateError := fun _ _ _ _ => none
  rawError := fun _ _ => none
  rawOutput := fun _ _ => ""
  portUsed := fun c _ proto b e =>
    c.nat.any fun rule =>
      rule.contains proto &&
        (List.range (e + 1 - b).toNat).any fun k => rule.contains (Itoa (b + k))

/-- The table in which host port 8002 of TCP is taken by another container. -/
def tableWith8002 : PortMapper := (PortMapper.New.AllocateMap "tcp" 8002 "10.0.0.9" 80).2

/-- The table in which host port 8080 of TCP is taken by another container. -/
def tableWith8080 : PortMapper := (PortMapper.New.AllocateMap "tcp" 8080 "10.0.0.9" 80).2

/-- The protocol under which `ReleasePortMaps` releases the host ports of a
mapping: `tcp` unless the protocol is `udp` in some letter case. -/
def PortMapping.releaseProtocol (m : PortMapping) : String :=
  if EqualFold m.Protocol "udp" then m.Protocol else "tcp"

/-- The mapping as `ReleasePortMaps` has it after its two normalisation steps:
the protocol replaced by its release protocol and a host `End` of 0 replaced by
`Begin`. -/
def PortMapping.released (m : PortMapping) : PortMapping :=
  ⟨m.releaseProtocol, m.ToPorts, ⟨m.FromPorts.Begin, m.FromPorts.endOrBegin⟩⟩

/-- The chains after `ReleasePortMaps` has dealt with one mapping: untouched
when the arguments do not generate, and otherwise after the removal of the
redirect rule and of the forwarding-permit rule. -/
def chainsAfterRelease (eng : RuleEngine) (containerip : String) (m : PortMapping)
    (c : Chains) : Chains :=
  match (generateIptablesArgs containerip m.released).1.2.2 with
  | some _ => c
  | none =>
    (Raw eng ("-D" :: "HYPER" :: (generateIptablesArgs containerip m.released).1.2.1)
      (OperatePortMap eng .Delete "HYPER" (generateIptablesArgs containerip m.released).1.1 c).2).2

/-- A decimal digit, as a character. -/
def isDigit (c : Char) : Prop := 48 ≤ c.toNat ∧ c.toNat ≤ 57

instance (c : Char) : Decidable (isDigit c) := by unfold isDigit; infer_instance

/-- The number that a text of decimal digits denotes, continuing from `n`. -/
def decimalFrom (n : Nat) (cs : List Char) : Nat :=
  cs.foldl (fun a c => a * 10 + (c.toNat - 48)) n

/-- A non-empty text of decimal digits whose value is at most 65535. -/
def isPortText (s : String) : Prop :=
  s ≠ "" ∧ (∀ c ∈ s.data, isDigit c) ∧ decimalFrom 0 s.data ≤ 65535

instance (s : String) : Decidable (isPortText s) := by unfold isPortText; infer_instance

/-- The text before the first separator (the whole text when there is none). -/
def textBefore (r : String) (sep : Char) : String := ⟨r.data.takeWhile (fun c => c != sep)⟩

/-- The text after the first separator. -/
def textAfter (r : String) (sep : Char) : String :=
  ⟨(r.data.dropWhile (fun c => c != sep)).tail⟩

/-- The allocation loop of `SetupPortMaps` with a record of the host port and
the container port of every call of `AllocateMap`, in the order of the calls. -/
def allocLoopLog (protocol containerip : String) (End : Int) (i j : Int) (pm : PortMapper) :
    Option ((Option Error × Int × PortMapper) × List (Int × Int)) :=
  if i ≤ End then
    match pm.AllocateMap protocol i containerip j with
    | (some err, pm1) => some ((some err, i, pm1), [(i, j)])
    | (none, pm1) =>
      if i = maxInt then none
      else
        match allocLoopLog protocol containerip End (i + 1) (wrapInt (j + 1)) pm1 with
        | none => none
        | some (r, log) => some (r, (i, j) :: log)
  else some ((none, i, pm), [])
termination_by (End + 1 - i).toNat
decreasing_by omega

/-- The loop `for _, m := range maps` of `SetupPortMaps` with a record of the
calls of `AllocateMap`: for every mapping whose allocation loop is run, in the
order of the list, the mapping as the loop reads it and the host port and
container port of each call. It is `setupLoop` with `allocLoop` replaced by
`allocLoopLog`. -/
def setupLoopLog (eng : RuleEngine) (containerip : String) :
    List PortMapping → World →
      Option ((Option Error × List PortMapping × World) × List (PortMapping × List (Int × Int)))
  | [], w => some ((none, [], w), [])
  | m0 :: rest, w =>
    let r := generateIptablesArgs containerip m0
    let natArgs := r.1.1
    let filterArgs := r.1.2.1
    let m := r.2
    match r.1.2.2 with
    | some err => some ((some err, m :: rest, w), [])
    | none =>
      if PortMapExists "HYPER" natArgs w.chains then some ((none, m :: rest, w), [])
      else if PortMapUsed eng "HYPER" m.Protocol m.FromPorts.Begin m.FromPorts.End w.chains then
        some ((some (.errorf ("Host port " ++ m.FromPorts.fmt ++ " has aleady been used")),
          m :: rest, w), [])
      else
        match OperatePortMap eng .Insert "HYPER" natArgs w.chains with
        | (some err, c1) => some ((some err, m :: rest, { w with chains := c1 }), [])
        | (none, c1) =>
          match Raw eng ("-I" :: "HYPER" :: filterArgs) c1 with
          | ((_, some err), c2) =>
            some ((some (.errorf ("Unable to setup forward rule in HYPER chain: " ++ err.message)),
              m :: rest, { w with chains := c2 }), [])
          | ((output, none), c2) =>
            if output.length ≠ 0 then
              some ((some (.chainError "HYPER" output), m :: rest, { w with chains := c2 }), [])
            else
              match allocLoopLog m.Protocol containerip m.FromPorts.End m.FromPorts.Begin
                  m.ToPorts.Begin w.portMapper with
              | none => none
              | some ((some err, i, pm), calls) =>
                match deferredRollback (some err) m.Protocol m.FromPorts.Begin i pm with
                | none => none
                | some pm1 => some ((some err, m :: rest, ⟨pm1, c2⟩), [(m, calls)])
              | some ((none, _, pm), calls) =>
                match setupLoopLog eng containerip rest ⟨pm, c2⟩ with
                | none => none
                | some ((err, rest1, w1), log) => some ((err, m :: rest1, w1), (m, calls) :: log)

/-- The function `SetupPortMaps` with the record of the calls of `AllocateMap`
that `setupLoopLog` keeps. -/
def SetupPortMapsLog (disableIptables : Bool) (eng : RuleEngine) (containerip : String)
    (maps : List PortMapping) (w : World) :
    Option ((Option Error × List PortMapping × World) × List (PortMapping × List (Int × Int))) :=
  if disableIptables || maps.length == 0 then some ((none, maps, w), [])
  else setupLoopLog eng containerip maps w

/-- The calls recorded for one mapping are at least one and at most one per
host port of the mapping, exactly one for a single host port, and each passes a
host port of the host range and a container port of the container range, the
one at the same distance from the start of its range as the host port. -/
def callsInRange (m : PortMapping) (calls : List (Int × Int)) : Prop :=
  1 ≤ calls.length ∧
  (calls.length : Int) ≤ m.FromPorts.End - m.FromPorts.Begin + 1 ∧
  (m.FromPorts.End = m.FromPorts.Begin → calls.length = 1) ∧
  ∀ c ∈ calls, m.FromPorts.Begin ≤ c.1 ∧ c.1 ≤ m.FromPorts.End ∧
    m.ToPorts.Begin ≤ c.2 ∧ c.2 ≤ m.ToPorts.End ∧
    c.2 = m.ToPorts.Begin + (c.1 - m.FromPorts.Begin)

/-- An entry of the table `pm1` that the table `pm` does not hold was made for
the mapping `m` and the container address: its key is a host port of the
mapping and its container port lies in the container range, at the same
distance from the start of its range as the host port. -/
def entryInRange (containerip : String) (m : PortMapping) (pr : String) (h : Int)
    (v : String × Int) : Prop :=
  pr = m.Protocol ∧ m.FromPorts.Begin ≤ h ∧ h ≤ m.FromPorts.End ∧
  v.1 = containerip ∧ m.ToPorts.Begin ≤ v.2 ∧ v.2 ≤ m.ToPorts.End ∧
  v.2 = m.ToPorts.Begin + (h - m.FromPorts.Begin)

/-! ## Auxiliary lemmas -/

theorem PortMapper.eq_of_table {a b : PortMapper} (h : ∀ pr p, a.table pr p = b.table pr p) :
    a = b := by
  cases a; cases b
  congr
  funext pr p
  exact h pr p

theorem wrapInt_of_isInt {x : Int} (h : isInt x) : wrapInt x = x := by
  simp only [isInt, minInt, maxInt] at h
  simp only [wrapInt]
  omega

theorem AllocateMap_free (pm : PortMapper) (protocol ip : String) (h j : Int)
    (hfree : pm.table protocol h = none) :
    pm.AllocateMap protocol h ip j =
      (none, ⟨fun pr p => if pr = protocol ∧ p = h then some (ip, j) else pm.table pr p⟩) := by
  simp [PortMapper.AllocateMap, hfree]

theorem AllocateMap_busy (pm : PortMapper) (protocol ip : String) (h j : Int)
    (hbusy : pm.table protocol h ≠ none) :
    pm.AllocateMap protocol h ip j = (some (.alreadyAllocated protocol h), pm) := by
  unfold PortMapper.AllocateMap
  cases hv : pm.table protocol h with
  | none => exact absurd hv hbusy
  | some v => rfl

theorem ReleaseMap_table (pm : PortMapper) (protocol : String) (h : Int) :
    (pm.ReleaseMap protocol h).2 =
      ⟨fun pr p => if pr = protocol ∧ p = h then none else pm.table pr p⟩ := by
  unfold PortMapper.ReleaseMap
  cases hv : pm.table protocol h with
  | some v => rfl
  | none =>
    apply PortMapper.eq_of_table
    intro pr p
    by_cases hk : pr = protocol ∧ p = h
    · obtain ⟨rfl, rfl⟩ := hk
      simp [hv]
    · simp [hk]

theorem allocLoop_free (protocol ip : String) (e : Int) (he : e < maxInt) :
    ∀ (n : Nat) (i j : Int) (pm : PortMapper), (e + 1 - i).toNat = n →
      (∀ h, i ≤ h → h ≤ e → pm.table protocol h = none) →
      (i < e → minInt ≤ j ∧ j + (e - i) ≤ maxInt) →
      allocLoop protocol ip e i j pm =
        some (none, max i (e + 1), pm.withRange protocol ip i e j) := by
  intro n
  induction n with
  | zero =>
    intro i j pm hn _ _
    have hi : ¬ i ≤ e := by omega
    rw [allocLoop, if_neg hi]
    have : max i (e + 1) = i := by omega
    rw [this]
    congr 3
    apply PortMapper.eq_of_table
    intro pr p
    simp only [PortMapper.withRange]
    rw [if_neg]
    omega
  | succ n ih =>
    intro i j pm hn hfree hj
    have hi : i ≤ e := by omega
    have him : i ≠ maxInt := by omega
    rw [allocLoop, if_pos hi, AllocateMap_free pm protocol ip i j (hfree i le_rfl hi)]
    simp only [if_neg him]
    rw [ih (i + 1) (wrapInt (j + 1)) _ (by omega)]
    · have : max (i + 1) (e + 1) = max i (e + 1) := by omega
      rw [this]
      congr 3
      apply PortMapper.eq_of_table
      intro pr p
      simp only [PortMapper.withRange]
      by_cases hpr : pr = protocol
      · subst hpr
        by_cases hp : p = i
        · subst hp
          simp [hi]
        · by_cases hlt : i < e
          · have hw : wrapInt (j + 1) = j + 1 := by
              apply wrapInt_of_isInt
              have := hj hlt
              simp only [isInt]
              omega
            rw [hw]
            by_cases hin : i + 1 ≤ p ∧ p ≤ e
            · have hin2 : i ≤ p ∧ p ≤ e := by omega
              simp only [hin, hin2, true_and, and_self, if_true]
              congr 2
              omega
            · have hin2 : ¬ (i ≤ p ∧ p ≤ e) := by omega
              simp [hin, hin2, hp]
          · have hin : ¬ (i + 1 ≤ p ∧ p ≤ e) := by omega
            have hin2 : ¬ (i ≤ p ∧ p ≤ e) := by omega
            simp [hin, hin2, hp]
      · simp [hpr]
    · intro h h1 h2
      have : ¬ (h = i) := by omega
      simp only [this, and_false, if_false]
      exact hfree h (by omega) h2
    · intro hlt
      have hlt2 : i < e := by omega
      have := hj hlt2
      have hw : wrapInt (j + 1) = j + 1 := by
        apply wrapInt_of_isInt
        simp only [isInt]
        omega
      rw [hw]
      omega

theorem allocLoop_busy (protocol ip : String) (e p : Int) (hpe : p ≤ e) (hpm : p ≤ maxInt) :
    ∀ (n : Nat) (i j : Int) (pm : PortMapper), (p - i).toNat = n → i ≤ p →
      (∀ h, i ≤ h → h < p → pm.table protocol h = none) →
      pm.table protocol p ≠ none →
      ∃ pm1, allocLoop protocol ip e i j pm = some (some (.alreadyAllocated protocol p), p, pm1) ∧
        ∀ pr h, ¬ (pr = protocol ∧ i ≤ h ∧ h < p) → pm1.table pr h = pm.table pr h := by
  intro n
  induction n with
  | zero =>
    intro i j pm hn hip _ hbusy
    have hi : i = p := by omega
    subst hi
    refine ⟨pm, ?_, fun _ _ _ => rfl⟩
    rw [allocLoop, if_pos hpe, AllocateMap_busy pm protocol ip i j hbusy]
  | succ n ih =>
    intro i j pm hn hip hfree hbusy
    have hlt : i < p := by omega
    have hi : i ≤ e := by omega
    have him : i ≠ maxInt := by omega
    rw [allocLoop, if_pos hi, AllocateMap_free pm protocol ip i j (hfree i le_rfl hlt)]
    simp only [if_neg him]
    obtain ⟨pm1, h1, h2⟩ := ih (i + 1) (wrapInt (j + 1))
      ⟨fun pr q => if pr = protocol ∧ q = i then some (ip, j) else pm.table pr q⟩
      (by omega) (by omega)
      (by
        intro h h1 h2
        have : ¬ (h = i) := by omega
        simp only [this, and_false, if_false]
        exact hfree h (by omega) h2)
      (by
        have : ¬ (p = i) := by omega
        simp only [this, and_false, if_false]
        exact hbusy)
    refine ⟨pm1, h1, ?_⟩
    intro pr h hout
    rw [h2 pr h (fun hc => hout ⟨hc.1, by omega, hc.2.2⟩)]
    have : ¬ (pr = protocol ∧ h = i) := by
      rintro ⟨rfl, rfl⟩
      exact hout ⟨rfl, le_rfl, hlt⟩
    simp only [this, if_false]

theorem rollbackLoop_eq (protocol : String) (b : Int) (hb : minInt < b) :
    ∀ (n : Nat) (i : Int) (pm : PortMapper), (i + 1 - b).toNat = n →
      rollbackLoop protocol b i pm = some (pm.withoutRange protocol b i) := by
  intro n
  induction n with
  | zero =>
    intro i pm hn
    have hi : ¬ i ≥ b := by omega
    rw [rollbackLoop, if_neg hi]
    congr 1
    apply PortMapper.eq_of_table
    intro pr p
    simp only [PortMapper.withoutRange]
    rw [if_neg]
    omega
  | succ n ih =>
    intro i pm hn
    have hi : i ≥ b := by omega
    have him : i ≠ minInt := by omega
    rw [rollbackLoop, if_pos hi, if_neg him, ih (i - 1) _ (by omega), ReleaseMap_table]
    congr 1
    apply PortMapper.eq_of_table
    intro pr p
    simp only [PortMapper.withoutRange]
    by_cases hpr : pr = protocol
    · subst hpr
      by_cases hp : p = i
      · subst hp
        simp [hi]
      · by_cases hin : b ≤ p ∧ p ≤ i - 1
        · have hin2 : b ≤ p ∧ p ≤ i := by omega
          simp [hin, hin2]
        · have hin2 : ¬ (b ≤ p ∧ p ≤ i) := by omega
          simp [hin, hin2, hp]
    · simp [hpr]

theorem releaseLoop_eq (protocol : String) (e : Int) (he : e < maxInt) :
    ∀ (n : Nat) (i : Int) (pm : PortMapper), (e + 1 - i).toNat = n →
      releaseLoop protocol e i pm = some (pm.withoutRange protocol i e) := by
  intro n
  induction n with
  | zero =>
    intro i pm hn
    have hi : ¬ i ≤ e := by omega
    rw [releaseLoop, if_neg hi]
    congr 1
    apply PortMapper.eq_of_table
    intro pr p
    simp only [PortMapper.withoutRange]
    rw [if_neg]
    omega
  | succ n ih =>
    intro i pm hn
    have hi : i ≤ e := by omega
    have him : i ≠ maxInt := by omega
    rw [releaseLoop, if_pos hi, if_neg him, ih (i + 1) _ (by omega), ReleaseMap_table]
    congr 1
    apply PortMapper.eq_of_table
    intro pr p
    simp only [PortMapper.withoutRange]
    by_cases hpr : pr = protocol
    · subst hpr
      by_cases hp : p = i
      · subst hp
        simp [hi]
      · by_cases hin : i + 1 ≤ p ∧ p ≤ e
        · have hin2 : i ≤ p ∧ p ≤ e := by omega
          simp [hin, hin2]
        · have hin2 : ¬ (i ≤ p ∧ p ≤ e) := by omega
          simp [hin, hin2, hp]
    · simp [hpr]

/-- Releasing a range that was free before it was filled gives the table back. -/
theorem withoutRange_restores (pm pm1 : PortMapper) (protocol : String) (b e : Int)
    (hfree : ∀ h, b ≤ h → h ≤ e → pm.table protocol h = none)
    (hsame : ∀ pr h, ¬ (pr = protocol ∧ b ≤ h ∧ h ≤ e) → pm1.table pr h = pm.table pr h) :
    pm1.withoutRange protocol b e = pm := by
  apply PortMapper.eq_of_table
  intro pr p
  simp only [PortMapper.withoutRange]
  by_cases hin : pr = protocol ∧ b ≤ p ∧ p ≤ e
  · rw [if_pos hin]
    obtain ⟨rfl, h1, h2⟩ := hin
    exact (hfree p h1 h2).symm
  · rw [if_neg hin]
    exact hsame pr p hin

theorem generateIptablesArgs_idem (containerip : String) (m : PortMapping) :
    generateIptablesArgs containerip (generateIptablesArgs containerip m).2 =
      generateIptablesArgs containerip m := by
  obtain ⟨proto, ⟨tb, te⟩, ⟨fb, fe⟩⟩ := m
  have hw0 : wrapInt 0 = 0 := by decide
  by_cases h1 : fe = 0 ∨ fe = fb
  · by_cases h2 : te = 0 ∨ te = tb
    · simp [generateIptablesArgs, h1, h2]
    · by_cases h3 : te > tb
      · simp [generateIptablesArgs, h1, h2, h3, hw0]
      · simp [generateIptablesArgs, h1, h2, h3]
  · by_cases h0 : fe > fb
    · by_cases h4 : wrapInt (fe - fb) = 0
      · by_cases h2 : te = 0 ∨ te = tb
        · simp [generateIptablesArgs, h1, h2, h0, h4]
        · by_cases h3 : te > tb
          · simp [generateIptablesArgs, h1, h2, h3, h0, h4]
          · simp [generateIptablesArgs, h1, h2, h3, h0]
      · by_cases h2 : te = 0 ∨ te = tb
        · by_cases h5 : wrapInt (fe - fb) = wrapInt 0
          · simp [generateIptablesArgs, h1, h2, h0, h4, h5]
          · simp [generateIptablesArgs, h1, h2, h0, h4, h5]
        · by_cases h3 : te > tb
          · by_cases h5 : wrapInt (fe - fb) = wrapInt (te - tb)
            · simp [generateIptablesArgs, h1, h2, h3, h0, h4, h5]
            · simp [generateIptablesArgs, h1, h2, h3, h0, h4, h5]
          · simp [generateIptablesArgs, h1, h2, h3, h0]
    · simp [generateIptablesArgs, h1, h0]

theorem generateIptablesArgs_ok (containerip : String) (m : PortMapping) (hm : m.isInts)
    (hok : (generateIptablesArgs containerip m).1.2.2 = none) :
    (generateIptablesArgs containerip m).2 =
      ⟨m.Protocol, ⟨m.ToPorts.Begin, m.ToPorts.endOrBegin⟩,
        ⟨m.FromPorts.Begin, m.FromPorts.endOrBegin⟩⟩ ∧
    m.FromPorts.Begin ≤ m.FromPorts.endOrBegin ∧
    m.ToPorts.Begin ≤ m.ToPorts.endOrBegin ∧
    (m.FromPorts.endOrBegin = m.FromPorts.Begin ∨
      m.FromPorts.endOrBegin - m.FromPorts.Begin = m.ToPorts.endOrBegin - m.ToPorts.Begin) := by
  obtain ⟨proto, ⟨tb, te⟩, ⟨fb, fe⟩⟩ := m
  simp only [PortMapping.isInts, isInt, minInt, maxInt] at hm
  simp only [PortRange.endOrBegin]
  have hw0 : wrapInt 0 = 0 := by decide
  by_cases h1 : fe = 0 ∨ fe = fb
  · have hfe : (if fe = 0 then fb else fe) = fb := by split_ifs <;> omega
    rw [hfe]
    by_cases h2 : te = 0 ∨ te = tb
    · have hte : (if te = 0 then tb else te) = tb := by split_ifs <;> omega
      rw [hte]
      simp [generateIptablesArgs, h1, h2, hw0]
    · by_cases h3 : te > tb
      · have hte : (if te = 0 then tb else te) = te := by split_ifs <;> omega
        rw [hte]
        simp [generateIptablesArgs, h1, h2, h3, hw0]
        omega
      · simp [generateIptablesArgs, h1, h2, h3] at hok
  · by_cases h0 : fe > fb
    · have hfe : (if fe = 0 then fb else fe) = fe := by split_ifs <;> omega
      rw [hfe]
      have h4 : wrapInt (fe - fb) ≠ 0 := by simp only [wrapInt]; omega
      by_cases h2 : te = 0 ∨ te = tb
      · have hte : (if te = 0 then tb else te) = tb := by split_ifs <;> omega
        rw [hte]
        by_cases h5 : wrapInt (fe - fb) = wrapInt 0
        · rw [hw0] at h5
          exact absurd h5 h4
        · simp [generateIptablesArgs, h1, h2, h0, h4, h5] at hok
      · by_cases h3 : te > tb
        · have hte : (if te = 0 then tb else te) = te := by split_ifs <;> omega
          rw [hte]
          by_cases h5 : wrapInt (fe - fb) = wrapInt (te - tb)
          · simp [generateIptablesArgs, h1, h2, h3, h0, h4, h5]
            simp only [wrapInt] at h5
            omega
          · simp [generateIptablesArgs, h1, h2, h3, h0, h4, h5] at hok
        · simp [generateIptablesArgs, h1, h2, h3, h0] at hok
    · simp [generateIptablesArgs, h1, h0] at hok

/-- One iteration of the setup loop on a mapping whose arguments generate, whose
redirect rule is new, whose host range the engine reports unused and whose
rules the engine installs, when every allocation succeeds: the loop goes on
with the rest of the list. -/
theorem setupLoop_cons_allocated (eng : RuleEngine) (containerip : String) (m : PortMapping)
    (rest : List PortMapping) (w : World)
    (hok : (generateIptablesArgs containerip m).1.2.2 = none)
    (hnew : PortMapExists "HYPER" (generateIptablesArgs containerip m).1.1 w.chains = false)
    (hunused : PortMapUsed eng "HYPER" (generateIptablesArgs containerip m).2.Protocol
      (generateIptablesArgs containerip m).2.FromPorts.Begin
      (generateIptablesArgs containerip m).2.FromPorts.End w.chains = false)
    (hinst : installsRules eng (generateIptablesArgs containerip m).1.1
      (generateIptablesArgs containerip m).1.2.1 w.chains)
    (i : Int) (pm : PortMapper)
    (halloc : allocLoop (generateIptablesArgs containerip m).2.Protocol containerip
      (generateIptablesArgs containerip m).2.FromPorts.End
      (generateIptablesArgs containerip m).2.FromPorts.Begin
      (generateIptablesArgs containerip m).2.ToPorts.Begin w.portMapper = some (none, i, pm))
    (err : Option Error) (rest1 : List PortMapping) (w1 : World)
    (hrest : setupLoop eng containerip rest
      ⟨pm, ⟨(generateIptablesArgs containerip m).1.1 :: w.chains.nat,
        (generateIptablesArgs containerip m).1.2.1 :: w.chains.filter⟩⟩ = some (err, rest1, w1)) :
    setupLoop eng containerip (m :: rest) w =
      some (err, (generateIptablesArgs containerip m).2 :: rest1, w1) := by
  obtain ⟨h1, h2, h3⟩ := hinst
  rw [setupLoop]
  simp only [hok, hnew, hunused, OperatePortMap, h1, Raw, h2, h3, halloc, hrest]
  simp

/-- One iteration of the setup loop on such a mapping when an allocation fails:
the deferred function runs and the error of the allocation is returned. -/
theorem setupLoop_cons_failed (eng : RuleEngine) (containerip : String) (m : PortMapping)
    (rest : List PortMapping) (w : World)
    (hok : (generateIptablesArgs containerip m).1.2.2 = none)
    (hnew : PortMapExists "HYPER" (generateIptablesArgs containerip m).1.1 w.chains = false)
    (hunused : PortMapUsed eng "HYPER" (generateIptablesArgs containerip m).2.Protocol
      (generateIptablesArgs containerip m).2.FromPorts.Begin
      (generateIptablesArgs containerip m).2.FromPorts.End w.chains = false)
    (hinst : installsRules eng (generateIptablesArgs containerip m).1.1
      (generateIptablesArgs containerip m).1.2.1 w.chains)
    (err : Error) (i : Int) (pm pm1 : PortMapper)
    (halloc : allocLoop (generateIptablesArgs containerip m).2.Protocol containerip
      (generateIptablesArgs containerip m).2.FromPorts.End
      (generateIptablesArgs containerip m).2.FromPorts.Begin
      (generateIptablesArgs containerip m).2.ToPorts.Begin w.portMapper = some (some err, i, pm))
    (hroll : deferredRollback (some err) (generateIptablesArgs containerip m).2.Protocol
      (generateIptablesArgs containerip m).2.FromPorts.Begin i pm = some pm1) :
    setupLoop eng containerip (m :: rest) w =
      some (some err, (generateIptablesArgs containerip m).2 :: rest,
        ⟨pm1, ⟨(generateIptablesArgs containerip m).1.1 :: w.chains.nat,
          (generateIptablesArgs containerip m).1.2.1 :: w.chains.filter⟩⟩) := by
  obtain ⟨h1, h2, h3⟩ := hinst
  rw [setupLoop]
  simp only [hok, hnew, hunused, OperatePortMap, h1, Raw, h2, h3, halloc, hroll]
  simp

/-- Among the busy host ports of a range there is a first one. -/
theorem exists_first_busy (pm : PortMapper) (protocol : String) (b : Int) :
    ∀ (n : Nat) (p : Int), (p - b).toNat = n → b ≤ p → pm.table protocol p ≠ none →
      ∃ q, b ≤ q ∧ q ≤ p ∧ pm.table protocol q ≠ none ∧
        ∀ h, b ≤ h → h < q → pm.table protocol h = none := by
  intro n
  induction n using Nat.strong_induction_on with
  | _ n ih =>
    intro p hn hbp hbusy
    by_cases hall : ∀ h, b ≤ h → h < p → pm.table protocol h = none
    · exact ⟨p, hbp, le_rfl, hbusy, hall⟩
    · push_neg at hall
      obtain ⟨h, hb, hlt, hne⟩ := hall
      obtain ⟨q, hq1, hq2, hq3, hq4⟩ := ih (h - b).toNat (by omega) h rfl hb hne
      exact ⟨q, hq1, by omega, hq3, hq4⟩

/-- Setup of a single mapping on the full path with all host ports free. -/
theorem SetupPortMaps_single_fresh (eng : RuleEngine) (containerip : String) (m : PortMapping)
    (w : World) (hfit : m.countersFit)
    (hok : (generateIptablesArgs containerip m).1.2.2 = none)
    (hnew : PortMapExists "HYPER" (generateIptablesArgs containerip m).1.1 w.chains = false)
    (hunused : PortMapUsed eng "HYPER" m.Protocol m.FromPorts.Begin m.FromPorts.endOrBegin
      w.chains = false)
    (hinst : installsRules eng (generateIptablesArgs containerip m).1.1
      (generateIptablesArgs containerip m).1.2.1 w.chains)
    (hfree : ∀ h, m.FromPorts.Begin ≤ h → h ≤ m.FromPorts.endOrBegin →
      w.portMapper.table m.Protocol h = none) :
    SetupPortMaps false eng containerip [m] w =
      some (none, [m.normalized],
        ⟨w.portMapper.withRange m.Protocol containerip m.FromPorts.Begin
            m.FromPorts.endOrBegin m.ToPorts.Begin,
          w.chains.withRules (generateIptablesArgs containerip m).1.1
            (generateIptablesArgs containerip m).1.2.1⟩) := by
  obtain ⟨hints, hlo, hhi⟩ := hfit
  obtain ⟨hg, hfle, htle, hlegal⟩ := generateIptablesArgs_ok containerip m hints hok
  have hints2 := hints
  simp only [PortMapping.isInts, isInt] at hints2
  have hte : m.ToPorts.endOrBegin ≤ maxInt := by
    simp only [PortRange.endOrBegin]
    split_ifs <;> omega
  have halloc := allocLoop_free m.Protocol containerip m.FromPorts.endOrBegin hhi _
    m.FromPorts.Begin m.ToPorts.Begin w.portMapper rfl hfree (by intro hlt; omega)
  have hmax : max m.FromPorts.Begin (m.FromPorts.endOrBegin + 1) = m.FromPorts.endOrBegin + 1 := by
    omega
  rw [hmax] at halloc
  simp only [SetupPortMaps, PortMapping.normalized, Chains.withRules]
  rw [← hg]
  exact setupLoop_cons_allocated eng containerip m [] w hok hnew
    (by rw [hg]; exact hunused) hinst _ _ (by rw [hg]; exact halloc) none [] _ (by rw [setupLoop])

/-- Setup of a single mapping on the full path when `p` is the first host port
of the range that is already in the table: the error of that allocation is
returned and the table is the one before the call. -/
theorem SetupPortMaps_single_busy (eng : RuleEngine) (containerip : String) (m : PortMapping)
    (w : World) (hfit : m.countersFit)
    (hok : (generateIptablesArgs containerip m).1.2.2 = none)
    (hnew : PortMapExists "HYPER" (generateIptablesArgs containerip m).1.1 w.chains = false)
    (hunused : PortMapUsed eng "HYPER" m.Protocol m.FromPorts.Begin m.FromPorts.endOrBegin
      w.chains = false)
    (hinst : installsRules eng (generateIptablesArgs containerip m).1.1
      (generateIptablesArgs containerip m).1.2.1 w.chains)
    (p : Int) (hp1 : m.FromPorts.Begin ≤ p) (hp2 : p ≤ m.FromPorts.endOrBegin)
    (hbusy : w.portMapper.table m.Protocol p ≠ none)
    (hfirst : ∀ h, m.FromPorts.Begin ≤ h → h < p → w.portMapper.table m.Protocol h = none) :
    SetupPortMaps false eng containerip [m] w =
      some (some (.alreadyAllocated m.Protocol p), [m.normalized],
        ⟨w.portMapper, w.chains.withRules (generateIptablesArgs containerip m).1.1
            (generateIptablesArgs containerip m).1.2.1⟩) := by
  obtain ⟨hints, hlo, hhi⟩ := hfit
  obtain ⟨hg, -, -, -⟩ := generateIptablesArgs_ok containerip m hints hok
  obtain ⟨pm1, halloc, hsame⟩ := allocLoop_busy m.Protocol containerip m.FromPorts.endOrBegin p
    hp2 (by omega) _ m.FromPorts.Begin m.ToPorts.Begin w.portMapper rfl hp1 hfirst hbusy
  have hroll : deferredRollback (some (.alreadyAllocated m.Protocol p)) m.Protocol
      m.FromPorts.Begin p pm1 = some w.portMapper := by
    have hpm : p ≠ minInt := by omega
    simp only [deferredRollback, if_neg hpm]
    rw [rollbackLoop_eq m.Protocol m.FromPorts.Begin hlo _ (p - 1) pm1 rfl]
    congr 1
    apply withoutRange_restores
    · intro h h1 h2
      exact hfirst h h1 (by omega)
    · intro pr h hout
      exact hsame pr h (fun hc => hout ⟨hc.1, hc.2.1, by omega⟩)
  simp only [SetupPortMaps, PortMapping.normalized, Chains.withRules]
  rw [← hg]
  exact setupLoop_cons_failed eng containerip m [] w hok hnew
    (by rw [hg]; exact hunused) hinst _ _ _ _ (by rw [hg]; exact halloc) (by rw [hg]; exact hroll)

theorem String_eq_empty_of_length {s : String} (h : s.length = 0) : s = "" := by
  cases s with
  | mk d =>
    simp only [String.length, List.length_eq_zero] at h
    subst h
    rfl

/-- When the allocation loop succeeds, every host port of the range was free. -/
theorem allocLoop_success_free (protocol ip : String) (e b j : Int) (pm pm1 : PortMapper)
    (i : Int) (he : e ≤ maxInt)
    (h : allocLoop protocol ip e b j pm = some (none, i, pm1)) :
    ∀ p, b ≤ p → p ≤ e → pm.table protocol p = none := by
  intro p0 hp1 hp2
  by_contra hbusy0
  obtain ⟨p, hq1, hq2, hbusy, hfirst⟩ := exists_first_busy pm protocol b _ p0 rfl hp1 hbusy0
  obtain ⟨pm2, h2, -⟩ := allocLoop_busy protocol ip e p (by omega) (by omega) _ b j pm rfl hq1
    hfirst hbusy
  rw [h2] at h
  simp at h

/-- What a successful setup of a single mapping tells: the arguments generated,
the redirect rule is in the chain afterwards, and either it was there before
and nothing changed, or the full path was taken. -/
theorem setupLoop_single_success (eng : RuleEngine) (containerip : String) (m : PortMapping)
    (w w1 : World) (ms1 : List PortMapping)
    (h : setupLoop eng containerip [m] w = some (none, ms1, w1)) :
    (generateIptablesArgs containerip m).1.2.2 = none ∧
    ms1 = [(generateIptablesArgs containerip m).2] ∧
    PortMapExists "HYPER" (generateIptablesArgs containerip m).1.1 w1.chains = true ∧
    (PortMapExists "HYPER" (generateIptablesArgs containerip m).1.1 w.chains = true → w1 = w) ∧
    (PortMapExists "HYPER" (generateIptablesArgs containerip m).1.1 w.chains = false →
      w1.chains = w.chains.withRules (generateIptablesArgs containerip m).1.1
        (generateIptablesArgs containerip m).1.2.1 ∧
      ∃ i, allocLoop (generateIptablesArgs containerip m).2.Protocol containerip
        (generateIptablesArgs containerip m).2.FromPorts.End
        (generateIptablesArgs containerip m).2.FromPorts.Begin
        (generateIptablesArgs containerip m).2.ToPorts.Begin w.portMapper =
          some (none, i, w1.portMapper)) := by
  rw [setupLoop] at h
  cases hok : (generateIptablesArgs containerip m).1.2.2 with
  | some e => simp [hok] at h
  | none =>
    simp only [hok] at h
    cases hex : PortMapExists "HYPER" (generateIptablesArgs containerip m).1.1 w.chains with
    | true =>
      simp only [hex, if_true, Option.some.injEq, Prod.mk.injEq, true_and] at h
      obtain ⟨h1, h2⟩ := h
      subst h2
      exact ⟨rfl, h1.symm, hex, fun _ => rfl, fun hc => by simp at hc⟩
    | false =>
      cases hused : PortMapUsed eng "HYPER" (generateIptablesArgs containerip m).2.Protocol
        (generateIptablesArgs containerip m).2.FromPorts.Begin
        (generateIptablesArgs containerip m).2.FromPorts.End w.chains with
      | true => simp [hex, hused] at h
      | false =>
        cases hop : eng.operateError w.chains .Insert "HYPER"
            (generateIptablesArgs containerip m).1.1 with
        | some e => simp [hex, hused, OperatePortMap, hop] at h
        | none =>
          cases hraw : eng.rawError
              (Chains.mk ((generateIptablesArgs containerip m).1.1 :: w.chains.nat) w.chains.filter)
              ("-I" :: "HYPER" :: (generateIptablesArgs containerip m).1.2.1) with
          | some e => simp [hex, hused, OperatePortMap, hop, Raw, hraw] at h
          | none =>
            simp only [hex, hused, OperatePortMap, hop, Raw, hraw, Bool.false_eq_true,
              if_false] at h
            split at h
            · simp at h
            · cases hal : allocLoop (generateIptablesArgs containerip m).2.Protocol containerip
                (generateIptablesArgs containerip m).2.FromPorts.End
                (generateIptablesArgs containerip m).2.FromPorts.Begin
                (generateIptablesArgs containerip m).2.ToPorts.Begin w.portMapper with
              | none => simp [hal] at h
              | some r =>
                obtain ⟨err, i, pm⟩ := r
                cases err with
                | some e =>
                  simp only [hal] at h
                  cases hr : deferredRollback (some e)
                    (generateIptablesArgs containerip m).2.Protocol
                    (generateIptablesArgs containerip m).2.FromPorts.Begin i pm with
                  | none => simp [hr] at h
                  | some pm1 => simp [hr] at h
                | none =>
                  simp only [hal, setupLoop, Option.some.injEq, Prod.mk.injEq, true_and] at h
                  obtain ⟨h1, h2⟩ := h
                  subst h2
                  refine ⟨rfl, h1.symm, ?_, fun hc => by simp at hc, fun _ => ⟨rfl, i, rfl⟩⟩
                  simp [PortMapExists]

/-- One iteration of the teardown loop: the host ports of the mapping are
released under its release protocol, its rules are removed if its arguments
generate, and the loop goes on with the rest of the list. -/
theorem releaseMapsLoop_cons (eng : RuleEngine) (containerip : String) (m : PortMapping)
    (rest : List PortMapping) (w : World) (hhi : m.FromPorts.endOrBegin < maxInt) :
    releaseMapsLoop eng containerip (m :: rest) w =
      (releaseMapsLoop eng containerip rest
        ⟨w.portMapper.withoutRange m.releaseProtocol m.FromPorts.Begin m.FromPorts.endOrBegin,
          chainsAfterRelease eng containerip m w.chains⟩).map
        (fun r => ((generateIptablesArgs containerip m.released).2 :: r.1, r.2)) := by
  rw [releaseMapsLoop]
  cases hfold : EqualFold m.Protocol "udp" <;> by_cases hz : m.FromPorts.End = 0 <;>
    simp only [PortMapping.released, chainsAfterRelease, PortMapping.releaseProtocol,
      PortRange.endOrBegin, hfold, hz, Bool.not_false,
      Bool.not_true, if_true, if_false, Bool.false_eq_true] at hhi ⊢ <;>
    rw [releaseLoop_eq _ _ hhi _ _ _ rfl] <;>
    simp only <;>
    split <;>
    rename_i hg <;>
    (try simp only [hg]) <;>
    cases releaseMapsLoop eng containerip rest _ <;> rfl

/-- The teardown loop returns for every list of mappings whose host ranges end
below the largest `int`, and the table it leaves is the one before with the
host ports of every mapping removed under its release protocol. -/
theorem releaseMapsLoop_table (eng : RuleEngine) (containerip : String) :
    ∀ (maps : List PortMapping) (w : World),
      (∀ m ∈ maps, m.FromPorts.endOrBegin < maxInt) →
      ∃ maps1 w1, releaseMapsLoop eng containerip maps w = some (maps1, w1) ∧
        ∀ pr h, w1.portMapper.table pr h =
          if ∃ m ∈ maps, pr = m.releaseProtocol ∧ m.FromPorts.Begin ≤ h ∧
              h ≤ m.FromPorts.endOrBegin then none
          else w.portMapper.table pr h := by
  intro maps
  induction maps with
  | nil =>
    intro w _
    exact ⟨[], w, by rw [releaseMapsLoop], fun pr h => by simp⟩
  | cons m rest ih =>
    intro w hfit
    obtain ⟨maps1, w1, h1, h2⟩ := ih
      ⟨w.portMapper.withoutRange m.releaseProtocol m.FromPorts.Begin m.FromPorts.endOrBegin,
        chainsAfterRelease eng containerip m w.chains⟩
      (fun m' hm' => hfit m' (List.mem_cons_of_mem _ hm'))
    refine ⟨(generateIptablesArgs containerip m.released).2 :: maps1, w1, ?_, ?_⟩
    · rw [releaseMapsLoop_cons eng containerip m rest w (hfit m (List.mem_cons_self _ _)), h1]
      rfl
    · intro pr h
      rw [h2 pr h]
      simp only [PortMapper.withoutRange, List.mem_cons, exists_eq_or_imp]
      by_cases hrest : ∃ m' ∈ rest, pr = m'.releaseProtocol ∧ m'.FromPorts.Begin ≤ h ∧
          h ≤ m'.FromPorts.endOrBegin
      · simp [hrest]
      · by_cases hm : pr = m.releaseProtocol ∧ m.FromPorts.Begin ≤ h ∧
            h ≤ m.FromPorts.endOrBegin
        · simp [hrest, hm]
        · simp only [hrest, hm, if_false, or_self]

theorem lowerASCII_u (c : Char) : lowerASCII c = 'u' ↔ c = 'u' ∨ c = 'U' := by
  have hc : c = Char.ofNat c.toNat := (Char.ofNat_toNat c).symm
  unfold lowerASCII
  split_ifs with h
  · obtain ⟨h1, h2⟩ := h
    generalize c.toNat = n at hc h1 h2
    subst hc
    interval_cases n <;> decide
  · constructor
    · intro h1
      exact Or.inl h1
    · rintro (rfl | rfl)
      · rfl
      · exact absurd (by decide : 65 ≤ 'U'.toNat ∧ 'U'.toNat ≤ 90) h

theorem lowerASCII_d (c : Char) : lowerASCII c = 'd' ↔ c = 'd' ∨ c = 'D' := by
  have hc : c = Char.ofNat c.toNat := (Char.ofNat_toNat c).symm
  unfold lowerASCII
  split_ifs with h
  · obtain ⟨h1, h2⟩ := h
    generalize c.toNat = n at hc h1 h2
    subst hc
    interval_cases n <;> decide
  · constructor
    · intro h1
      exact Or.inl h1
    · rintro (rfl | rfl)
      · rfl
      · exact absurd (by decide : 65 ≤ 'D'.toNat ∧ 'D'.toNat ≤ 90) h

theorem lowerASCII_p (c : Char) : lowerASCII c = 'p' ↔ c = 'p' ∨ c = 'P' := by
  have hc : c = Char.ofNat c.toNat := (Char.ofNat_toNat c).symm
  unfold lowerASCII
  split_ifs with h
  · obtain ⟨h1, h2⟩ := h
    generalize c.toNat = n at hc h1 h2
    subst hc
    interval_cases n <;> decide
  · constructor
    · intro h1
      exact Or.inl h1
    · rintro (rfl | rfl)
      · rfl
      · exact absurd (by decide : 65 ≤ 'P'.toNat ∧ 'P'.toNat ≤ 90) h

/-- The strings that `EqualFold` identifies with `udp` are its eight spellings
in upper and lower case. -/
theorem EqualFold_udp_iff (s : String) :
    EqualFold s "udp" = true ↔
      s ∈ ["udp", "udP", "uDp", "uDP", "Udp", "UdP", "UDp", "UDP"] := by
  constructor
  · intro h
    obtain ⟨data⟩ := s
    have h1 : data.map lowerASCII = ['u', 'd', 'p'] := by
      have h2 := beq_iff_eq.mp h
      exact h2
    match data, h1 with
    | [x, y, z], h1 =>
      simp only [List.map_cons, List.map_nil, List.cons.injEq, and_true] at h1
      obtain ⟨hx, hy, hz⟩ := h1
      rcases (lowerASCII_u x).mp hx with rfl | rfl <;>
        rcases (lowerASCII_d y).mp hy with rfl | rfl <;>
        rcases (lowerASCII_p z).mp hz with rfl | rfl <;> decide
    | [], h1 => simp at h1
    | [_], h1 => simp at h1
    | [_, _], h1 => simp at h1
    | _ :: _ :: _ :: _ :: _, h1 => simp at h1
  · intro h
    simp only [List.mem_cons, List.mem_singleton, List.not_mem_nil, or_false] at h
    rcases h with rfl | rfl | rfl | rfl | rfl | rfl | rfl | rfl <;> decide

theorem le_decimalFrom (cs : List Char) : ∀ n, n ≤ decimalFrom n cs := by
  induction cs with
  | nil => intro n; exact le_rfl
  | cons c cs ih =>
    intro n
    simp only [decimalFrom, List.foldl_cons]
    have := ih (n * 10 + (c.toNat - 48))
    simp only [decimalFrom] at this
    omega

theorem parseUintLoop_spec (s0 : String) (cs : List Char) :
    ∀ n, n ≤ 65535 →
      ((parseUintLoop 65535 s0 cs n).2 = none ↔
        (∀ c ∈ cs, isDigit c) ∧ decimalFrom n cs ≤ 65535) ∧
      ((parseUintLoop 65535 s0 cs n).2 = none →
        (parseUintLoop 65535 s0 cs n).1 = decimalFrom n cs) := by
  induction cs with
  | nil =>
    intro n hn
    simp [parseUintLoop, decimalFrom, hn]
  | cons c cs ih =>
    intro n hn
    have hmono := le_decimalFrom cs (n * 10 + (c.toNat - 48))
    simp only [parseUintLoop, decimalFrom, List.foldl_cons, List.mem_cons, forall_eq_or_imp]
    simp only [decimalFrom] at hmono ih
    by_cases hd : 48 ≤ c.toNat ∧ c.toNat ≤ 57
    · have hcut : ¬ (n ≥ 18446744073709551615 / 10 + 1) := by omega
      have h10 : (n * 10) % 18446744073709551616 = n * 10 := by omega
      have h1 : (n * 10 + (c.toNat - 48)) % 18446744073709551616 = n * 10 + (c.toNat - 48) := by
        omega
      simp only [hd, hcut, h10, h1, if_true, if_false, isDigit, and_self, true_and]
      have hcond : (n * 10 + (c.toNat - 48) < n * 10 ∨ n * 10 + (c.toNat - 48) > 65535) ↔
          65535 < n * 10 + (c.toNat - 48) := by omega
      simp only [hcond]
      by_cases hbig : 65535 < n * 10 + (c.toNat - 48)
      · have hgt : ¬ (List.foldl (fun a c => a * 10 + (c.toNat - 48))
            (n * 10 + (c.toNat - 48)) cs ≤ 65535) := by omega
        simp [hbig, hgt]
      · simp only [hbig, if_false]
        exact ih (n * 10 + (c.toNat - 48)) (by omega)
    · simp [hd, isDigit]

theorem ParseUint_spec (s : String) :
    ((ParseUint s 16).2 = none ↔ isPortText s) ∧
    ((ParseUint s 16).2 = none → (ParseUint s 16).1 = decimalFrom 0 s.data) := by
  unfold ParseUint isPortText
  by_cases hs : s = ""
  · simp [hs]
  · have h := parseUintLoop_spec s s.data 0 (by omega)
    simp only [hs, if_false, ne_eq, not_false_eq_true, true_and]
    exact h

theorem digitChar_isDigit (k : Nat) (hk : k < 10) :
    isDigit (Nat.digitChar k) ∧ (Nat.digitChar k).toNat - 48 = k := by
  interval_cases k <;> decide

theorem toDigitsCore_isDigit (fuel : Nat) :
    ∀ (n : Nat) (ds : List Char), (∀ c ∈ ds, isDigit c) →
      ∀ c ∈ Nat.toDigitsCore 10 fuel n ds, isDigit c := by
  induction fuel with
  | zero =>
    intro n ds hds
    simpa [Nat.toDigitsCore] using hds
  | succ fuel ih =>
    intro n ds hds
    have hd := (digitChar_isDigit (n % 10) (Nat.mod_lt _ (by decide))).1
    have hds2 : ∀ c ∈ Nat.digitChar (n % 10) :: ds, isDigit c := by
      intro c hc
      rcases List.mem_cons.mp hc with rfl | hc
      · exact hd
      · exact hds c hc
    simp only [Nat.toDigitsCore]
    split_ifs
    · exact hds2
    · exact ih _ _ hds2

theorem toDigitsCore_value (fuel : Nat) :
    ∀ (n : Nat) (ds : List Char), n < fuel →
      decimalFrom 0 (Nat.toDigitsCore 10 fuel n ds) = decimalFrom n ds := by
  induction fuel with
  | zero => intro n ds h; omega
  | succ fuel ih =>
    intro n ds hn
    have hd := (digitChar_isDigit (n % 10) (Nat.mod_lt _ (by decide))).2
    simp only [Nat.toDigitsCore]
    split_ifs with h0
    · simp only [decimalFrom, List.foldl_cons, hd]
      congr 1
      omega
    · rw [ih (n / 10) _ (by omega)]
      simp only [decimalFrom, List.foldl_cons, hd]
      congr 1
      omega

theorem toDigitsCore_ne_nil (fuel n : Nat) (ds : List Char) :
    Nat.toDigitsCore 10 (fuel + 1) n ds ≠ [] := by
  induction fuel generalizing n ds with
  | zero =>
    simp only [Nat.toDigitsCore]
    split_ifs <;> simp
  | succ fuel ih =>
    rw [Nat.toDigitsCore]
    split_ifs
    · simp
    · exact ih _ _

/-- The decimal rendering of a natural number: its characters. -/
theorem Itoa_data (b : Nat) : (Itoa (b : Int)).data = Nat.toDigits 10 b := rfl

theorem Itoa_nat_spec (b : Nat) :
    (Itoa (b : Int)) ≠ "" ∧ (∀ c ∈ (Itoa (b : Int)).data, isDigit c) ∧
      decimalFrom 0 (Itoa (b : Int)).data = b := by
  rw [Itoa_data]
  refine ⟨?_, ?_, ?_⟩
  · intro h
    have h2 : (Itoa (b : Int)).data = [] := by rw [h]
    rw [Itoa_data] at h2
    exact toDigitsCore_ne_nil b b [] h2
  · exact toDigitsCore_isDigit _ _ _ (by simp)
  · exact toDigitsCore_value _ _ _ (by omega)

theorem dropWhile_eq_nil_iff_not_mem (cs : List Char) (sep : Char) :
    cs.dropWhile (fun c => c != sep) = [] ↔ sep ∉ cs := by
  induction cs with
  | nil => simp
  | cons c cs ih =>
    by_cases h : c = sep
    · subst h
      simp [List.dropWhile]
    · have h2 : (c != sep) = true := by simpa using h
      simp only [List.dropWhile, h2, ih, List.mem_cons]
      constructor
      · rintro h3 (rfl | h4)
        · exact h rfl
        · exact h3 h4
      · intro h3 h4
        exact h3 (Or.inr h4)

theorem SplitN2_eq (r : String) (sep : Char) :
    SplitN2 r sep =
      if sep ∈ r.data then [textBefore r sep, textAfter r sep] else [textBefore r sep] := by
  unfold SplitN2 textBefore textAfter
  rw [List.span_eq_take_drop]
  cases hd : r.data.dropWhile (fun c => c != sep) with
  | nil =>
    have := (dropWhile_eq_nil_iff_not_mem r.data sep).mp hd
    simp [this]
  | cons x xs =>
    have : sep ∈ r.data := by
      by_contra hn
      have := (dropWhile_eq_nil_iff_not_mem r.data sep).mpr hn
      rw [this] at hd
      exact absurd hd (by simp)
    simp [this]

/-- What `NewPortRange` returns, in terms of the two parts of the text. -/
theorem NewPortRange_spec (r : String) :
    ((NewPortRange r).2 = none ↔
      isPortText (textBefore r '-') ∧ ('-' ∈ r.data → isPortText (textAfter r '-'))) ∧
    ((NewPortRange r).2 = none →
      (NewPortRange r).1 = some ⟨(decimalFrom 0 (textBefore r '-').data : Nat),
        if '-' ∈ r.data then (decimalFrom 0 (textAfter r '-').data : Nat)
        else (decimalFrom 0 (textBefore r '-').data : Nat)⟩) ∧
    ((NewPortRange r).2 ≠ none → (NewPortRange r).1 = none) := by
  obtain ⟨hb1, hb2⟩ := ParseUint_spec (textBefore r '-')
  obtain ⟨ha1, ha2⟩ := ParseUint_spec (textAfter r '-')
  unfold NewPortRange
  rw [SplitN2_eq]
  by_cases hsep : '-' ∈ r.data
  · simp only [hsep, if_true, List.getD_cons_zero, List.getD_cons_succ, List.length_cons,
      List.length_nil, true_imp_iff]
    cases hb : ParseUint (textBefore r '-') 16 with
    | mk b eb =>
      rw [hb] at hb1 hb2
      cases eb with
      | some e =>
        have : ¬ isPortText (textBefore r '-') := fun h => by simpa using hb1.mpr h
        simp [this]
      | none =>
        have hbt : isPortText (textBefore r '-') := hb1.mp rfl
        have hbv := hb2 rfl
        simp only at hbv
        cases ha : ParseUint (textAfter r '-') 16 with
        | mk a ea =>
          rw [ha] at ha1 ha2
          cases ea with
          | some e =>
            have : ¬ isPortText (textAfter r '-') := fun h => by simpa using ha1.mpr h
            simp [this]
          | none =>
            have hat : isPortText (textAfter r '-') := ha1.mp rfl
            have hav := ha2 rfl
            simp only at hav
            simp [hbt, hat, hbv, hav]
  · simp only [hsep, if_false, List.getD_cons_zero, List.length_cons, List.length_nil,
      false_imp_iff, and_true]
    cases hb : ParseUint (textBefore r '-') 16 with
    | mk b eb =>
      rw [hb] at hb1 hb2
      cases eb with
      | some e =>
        have : ¬ isPortText (textBefore r '-') := fun h => by simpa using hb1.mpr h
        simp [this]
      | none =>
        have hbt : isPortText (textBefore r '-') := hb1.mp rfl
        have hbv := hb2 rfl
        simp only at hbv
        simp [hbt, hbv]

theorem takeWhile_append_sep (ds rest : List Char) (sep : Char) (h : ∀ c ∈ ds, c ≠ sep) :
    (ds ++ sep :: rest).takeWhile (fun c => c != sep) = ds ∧
    (ds ++ sep :: rest).dropWhile (fun c => c != sep) = sep :: rest := by
  induction ds with
  | nil => simp [List.takeWhile, List.dropWhile]
  | cons d ds ih =>
    have hd : (d != sep) = true := by simpa using h d (List.mem_cons_self _ _)
    have ih2 := ih (fun c hc => h c (List.mem_cons_of_mem _ hc))
    simp [List.takeWhile, List.dropWhile, hd, ih2.1, ih2.2]

theorem takeWhile_no_sep (ds : List Char) (sep : Char) (h : ∀ c ∈ ds, c ≠ sep) :
    ds.takeWhile (fun c => c != sep) = ds := by
  induction ds with
  | nil => rfl
  | cons d ds ih =>
    have hd : (d != sep) = true := by simpa using h d (List.mem_cons_self _ _)
    simp [List.takeWhile, hd, ih (fun c hc => h c (List.mem_cons_of_mem _ hc))]

theorem isDigit_ne_minus (c : Char) (h : isDigit c) : c ≠ '-' := by
  rintro rfl
  exact absurd h (by decide)

/-- The decimal rendering of a port number is a port text with that value. -/
theorem Itoa_isPortText (b : Nat) (hb : b ≤ 65535) :
    isPortText (Itoa (b : Int)) ∧ decimalFrom 0 (Itoa (b : Int)).data = b := by
  obtain ⟨h1, h2, h3⟩ := Itoa_nat_spec b
  exact ⟨⟨h1, h2, by omega⟩, h3⟩

/-- What `NewPortRange` returns on the rendering of one port number and on the
rendering of two port numbers joined by a minus sign. -/
theorem NewPortRange_Itoa (b e : Nat) (hb : b ≤ 65535) (he : e ≤ 65535) :
    NewPortRange (Itoa (b : Int)) = (some ⟨(b : Int), (b : Int)⟩, none) ∧
    NewPortRange (Itoa (b : Int) ++ "-" ++ Itoa (e : Int)) =
      (some ⟨(b : Int), (e : Int)⟩, none) := by
  obtain ⟨hbt, hbv⟩ := Itoa_isPortText b hb
  obtain ⟨het, hev⟩ := Itoa_isPortText e he
  have hbd : ∀ c ∈ (Itoa (b : Int)).data, c ≠ '-' := fun c hc => isDigit_ne_minus c (hbt.2.1 c hc)
  constructor
  · obtain ⟨h1, h2, -⟩ := NewPortRange_spec (Itoa (b : Int))
    have hno : '-' ∉ (Itoa (b : Int)).data := fun hc => hbd _ hc rfl
    have hbefore : textBefore (Itoa (b : Int)) '-' = Itoa (b : Int) := by
      simp only [textBefore, takeWhile_no_sep _ _ hbd]
    rw [hbefore] at h1 h2
    have hnone := h1.mpr ⟨hbt, fun hc => absurd hc hno⟩
    have hsome := h2 hnone
    rw [hbv] at hsome
    simp only [hno, if_false] at hsome
    exact Prod.ext hsome hnone
  · obtain ⟨h1, h2, -⟩ := NewPortRange_spec (Itoa (b : Int) ++ "-" ++ Itoa (e : Int))
    have hdata : (Itoa (b : Int) ++ "-" ++ Itoa (e : Int)).data =
        (Itoa (b : Int)).data ++ '-' :: (Itoa (e : Int)).data := by
      simp [String.data_append]
    have hin : '-' ∈ (Itoa (b : Int) ++ "-" ++ Itoa (e : Int)).data := by
      rw [hdata]
      simp
    obtain ⟨ht, hd⟩ := takeWhile_append_sep (Itoa (b : Int)).data (Itoa (e : Int)).data '-' hbd
    have hbefore : textBefore (Itoa (b : Int) ++ "-" ++ Itoa (e : Int)) '-' = Itoa (b : Int) := by
      simp only [textBefore, hdata, ht]
    have hafter : textAfter (Itoa (b : Int) ++ "-" ++ Itoa (e : Int)) '-' = Itoa (e : Int) := by
      simp only [textAfter, hdata, hd, List.tail_cons]
    rw [hbefore, hafter] at h1 h2
    have hnone := h1.mpr ⟨hbt, fun _ => het⟩
    have hsome := h2 hnone
    rw [hbv, hev] at hsome
    simp only [hin, if_true] at hsome
    exact Prod.ext hsome hnone

/-- What a successful run of the setup loop tells about its first mapping: the
arguments generated, and either the redirect rule was in the chain and the
loop returned at once, or the full path was taken and the loop went on with
the rest of the list. -/
theorem setupLoop_cons_success (eng : RuleEngine) (containerip : String) (m : PortMapping)
    (rest : List PortMapping) (w w1 : World) (ms1 : List PortMapping)
    (h : setupLoop eng containerip (m :: rest) w = some (none, ms1, w1)) :
    (generateIptablesArgs containerip m).1.2.2 = none ∧
    ((PortMapExists "HYPER" (generateIptablesArgs containerip m).1.1 w.chains = true ∧
        ms1 = (generateIptablesArgs containerip m).2 :: rest ∧ w1 = w) ∨
     (PortMapExists "HYPER" (generateIptablesArgs containerip m).1.1 w.chains = false ∧
        PortMapUsed eng "HYPER" (generateIptablesArgs containerip m).2.Protocol
          (generateIptablesArgs containerip m).2.FromPorts.Begin
          (generateIptablesArgs containerip m).2.FromPorts.End w.chains = false ∧
        installsRules eng (generateIptablesArgs containerip m).1.1
          (generateIptablesArgs containerip m).1.2.1 w.chains ∧
        ∃ i pm rest1,
          allocLoop (generateIptablesArgs containerip m).2.Protocol containerip
            (generateIptablesArgs containerip m).2.FromPorts.End
            (generateIptablesArgs containerip m).2.FromPorts.Begin
            (generateIptablesArgs containerip m).2.ToPorts.Begin w.portMapper =
              some (none, i, pm) ∧
          setupLoop eng containerip rest
            ⟨pm, w.chains.withRules (generateIptablesArgs containerip m).1.1
              (generateIptablesArgs containerip m).1.2.1⟩ = some (none, rest1, w1) ∧
          ms1 = (generateIptablesArgs containerip m).2 :: rest1)) := by
  rw [setupLoop] at h
  cases hok : (generateIptablesArgs containerip m).1.2.2 with
  | some e => simp [hok] at h
  | none =>
    refine ⟨rfl, ?_⟩
    simp only [hok] at h
    cases hex : PortMapExists "HYPER" (generateIptablesArgs containerip m).1.1 w.chains with
    | true =>
      simp only [hex, if_true, Option.some.injEq, Prod.mk.injEq, true_and] at h
      obtain ⟨h1, h2⟩ := h
      exact Or.inl ⟨rfl, h1.symm, h2.symm⟩
    | false =>
      right
      cases hused : PortMapUsed eng "HYPER" (generateIptablesArgs containerip m).2.Protocol
        (generateIptablesArgs containerip m).2.FromPorts.Begin
        (generateIptablesArgs containerip m).2.FromPorts.End w.chains with
      | true => simp [hex, hused] at h
      | false =>
        cases hop : eng.operateError w.chains .Insert "HYPER"
            (generateIptablesArgs containerip m).1.1 with
        | some e => simp [hex, hused, OperatePortMap, hop] at h
        | none =>
          cases hraw : eng.rawError
              (Chains.mk ((generateIptablesArgs containerip m).1.1 :: w.chains.nat) w.chains.filter)
              ("-I" :: "HYPER" :: (generateIptablesArgs containerip m).1.2.1) with
          | some e => simp [hex, hused, OperatePortMap, hop, Raw, hraw] at h
          | none =>
            simp only [hex, hused, OperatePortMap, hop, Raw, hraw, Bool.false_eq_true,
              if_false] at h
            split at h
            · simp at h
            · rename_i hlen
              have hout : eng.rawOutput
                  (Chains.mk ((generateIptablesArgs containerip m).1.1 :: w.chains.nat)
                    w.chains.filter)
                  ("-I" :: "HYPER" :: (generateIptablesArgs containerip m).1.2.1) = "" :=
                String_eq_empty_of_length (not_not.mp hlen)
              cases hal : allocLoop (generateIptablesArgs containerip m).2.Protocol containerip
                (generateIptablesArgs containerip m).2.FromPorts.End
                (generateIptablesArgs containerip m).2.FromPorts.Begin
                (generateIptablesArgs containerip m).2.ToPorts.Begin w.portMapper with
              | none => simp [hal] at h
              | some r =>
                obtain ⟨err, i, pm⟩ := r
                cases err with
                | some e =>
                  simp only [hal] at h
                  cases hr : deferredRollback (some e)
                    (generateIptablesArgs containerip m).2.Protocol
                    (generateIptablesArgs containerip m).2.FromPorts.Begin i pm with
                  | none => simp [hr] at h
                  | some pm1 => simp [hr] at h
                | none =>
                  simp only [hal] at h
                  cases hrest : setupLoop eng containerip rest
                      ⟨pm, ⟨(generateIptablesArgs containerip m).1.1 :: w.chains.nat,
                        (generateIptablesArgs containerip m).1.2.1 :: w.chains.filter⟩⟩ with
                  | none => simp [hrest] at h
                  | some r =>
                    obtain ⟨err, rest1, w2⟩ := r
                    simp only [hrest, Option.some.injEq, Prod.mk.injEq] at h
                    obtain ⟨rfl, h1, rfl⟩ := h
                    exact ⟨rfl, rfl, ⟨hop, hraw, hout⟩, i, pm, rest1, rfl, hrest, h1.symm⟩

/-- A run of the setup loop that reaches a mapping whose redirect rule is in
the chain returns success there, whatever follows in the list: the state is
the one the mappings before it left. -/
theorem setupLoop_stops_at_installed (eng : RuleEngine) (containerip : String)
    (m : PortMapping) (post : List PortMapping) :
    ∀ (pre pre1 : List PortMapping) (w w1 : World),
      setupLoop eng containerip pre w = some (none, pre1, w1) →
      (generateIptablesArgs containerip m).1.2.2 = none →
      PortMapExists "HYPER" (generateIptablesArgs containerip m).1.1 w1.chains = true →
      ∃ m1, (m1 = m ∨ m1 = (generateIptablesArgs containerip m).2) ∧
        setupLoop eng containerip (pre ++ m :: post) w =
          some (none, pre1 ++ m1 :: post, w1) := by
  intro pre
  induction pre with
  | nil =>
    intro pre1 w w1 hpre hok hex
    rw [setupLoop] at hpre
    simp only [Option.some.injEq, Prod.mk.injEq, true_and] at hpre
    obtain ⟨rfl, rfl⟩ := hpre
    refine ⟨(generateIptablesArgs containerip m).2, Or.inr rfl, ?_⟩
    simp only [List.nil_append, setupLoop, hok, hex, if_true]
  | cons a pre ih =>
    intro pre1 w w1 hpre hok hex
    obtain ⟨haok, hcase⟩ := setupLoop_cons_success eng containerip a pre w w1 pre1 hpre
    rcases hcase with ⟨haex, hms, hw⟩ | ⟨hanew, haun, hainst, i, pm, rest1, hal, hrest, hms⟩
    · subst hms hw
      refine ⟨m, Or.inl rfl, ?_⟩
      simp only [List.cons_append, setupLoop, haok, haex, if_true]
      rfl
    · subst hms
      obtain ⟨m1, hm0, hm1⟩ := ih rest1 _ w1 hrest hok hex
      exact ⟨m1, hm0, setupLoop_cons_allocated eng containerip a (pre ++ m :: post) w haok hanew haun
        hainst i pm hal none _ w1 hm1⟩

/-- A failing setup of a single mapping leaves the allocation table as it was
and removes no rule from the chains. -/
theorem setupLoop_single_failure (eng : RuleEngine) (containerip : String) (m : PortMapping)
    (w w1 : World) (err : Error) (ms : List PortMapping) (hfit : m.countersFit)
    (h : setupLoop eng containerip [m] w = some (some err, ms, w1)) :
    w1.portMapper = w.portMapper ∧ (∀ r ∈ w.chains.nat, r ∈ w1.chains.nat) ∧
      (∀ r ∈ w.chains.filter, r ∈ w1.chains.filter) := by
  have h0 := h
  rw [setupLoop] at h
  cases hok : (generateIptablesArgs containerip m).1.2.2 with
  | some e =>
    simp only [hok, Option.some.injEq, Prod.mk.injEq] at h
    obtain ⟨-, -, rfl⟩ := h
    exact ⟨rfl, fun _ hr => hr, fun _ hr => hr⟩
  | none =>
    simp only [hok] at h
    cases hex : PortMapExists "HYPER" (generateIptablesArgs containerip m).1.1 w.chains with
    | true => simp [hex] at h
    | false =>
      cases hused : PortMapUsed eng "HYPER" (generateIptablesArgs containerip m).2.Protocol
        (generateIptablesArgs containerip m).2.FromPorts.Begin
        (generateIptablesArgs containerip m).2.FromPorts.End w.chains with
      | true =>
        simp only [hex, hused, Bool.false_eq_true, if_false, if_true, Option.some.injEq,
          Prod.mk.injEq] at h
        obtain ⟨-, -, rfl⟩ := h
        exact ⟨rfl, fun _ hr => hr, fun _ hr => hr⟩
      | false =>
        cases hop : eng.operateError w.chains .Insert "HYPER"
            (generateIptablesArgs containerip m).1.1 with
        | some e =>
          simp only [hex, hused, OperatePortMap, hop, Bool.false_eq_true, if_false,
            Option.some.injEq, Prod.mk.injEq] at h
          obtain ⟨-, -, rfl⟩ := h
          exact ⟨rfl, fun _ hr => hr, fun _ hr => hr⟩
        | none =>
          cases hraw : eng.rawError
              (Chains.mk ((generateIptablesArgs containerip m).1.1 :: w.chains.nat) w.chains.filter)
              ("-I" :: "HYPER" :: (generateIptablesArgs containerip m).1.2.1) with
          | some e =>
            simp only [hex, hused, OperatePortMap, hop, Raw, hraw, Bool.false_eq_true, if_false,
              Option.some.injEq, Prod.mk.injEq] at h
            obtain ⟨-, -, rfl⟩ := h
            exact ⟨rfl, fun _ hr => List.mem_cons_of_mem _ hr, fun _ hr => hr⟩
          | none =>
            simp only [hex, hused, OperatePortMap, hop, Raw, hraw, Bool.false_eq_true,
              if_false] at h
            split at h
            · simp only [Option.some.injEq, Prod.mk.injEq] at h
              obtain ⟨-, -, rfl⟩ := h
              exact ⟨rfl, fun _ hr => List.mem_cons_of_mem _ hr,
                fun _ hr => List.mem_cons_of_mem _ hr⟩
            · rename_i hlen
              have hout : eng.rawOutput
                  (Chains.mk ((generateIptablesArgs containerip m).1.1 :: w.chains.nat)
                    w.chains.filter)
                  ("-I" :: "HYPER" :: (generateIptablesArgs containerip m).1.2.1) = "" :=
                String_eq_empty_of_length (not_not.mp hlen)
              have hinst : installsRules eng (generateIptablesArgs containerip m).1.1
                  (generateIptablesArgs containerip m).1.2.1 w.chains := ⟨hop, hraw, hout⟩
              obtain ⟨hg, -, -, -⟩ := generateIptablesArgs_ok containerip m hfit.1 hok
              have hused2 : PortMapUsed eng "HYPER" m.Protocol m.FromPorts.Begin
                  m.FromPorts.endOrBegin w.chains = false := by
                rw [hg] at hused
                exact hused
              have hS : SetupPortMaps false eng containerip [m] w = some (some err, ms, w1) := by
                simpa [SetupPortMaps] using h0
              by_cases hbusy : ∃ p, m.FromPorts.Begin ≤ p ∧ p ≤ m.FromPorts.endOrBegin ∧
                  w.portMapper.table m.Protocol p ≠ none
              · obtain ⟨p0, hp1, hp2, hb0⟩ := hbusy
                obtain ⟨p, hq1, hq2, hb1, hfirst⟩ :=
                  exists_first_busy w.portMapper m.Protocol m.FromPorts.Begin _ p0 rfl hp1 hb0
                rw [SetupPortMaps_single_busy eng containerip m w hfit hok hex hused2 hinst p hq1
                  (by omega) hb1 hfirst] at hS
                simp only [Option.some.injEq, Prod.mk.injEq] at hS
                obtain ⟨-, -, rfl⟩ := hS
                exact ⟨rfl, fun _ hr => List.mem_cons_of_mem _ hr,
                  fun _ hr => List.mem_cons_of_mem _ hr⟩
              · have hfree : ∀ p, m.FromPorts.Begin ≤ p → p ≤ m.FromPorts.endOrBegin →
                    w.portMapper.table m.Protocol p = none := by
                  intro p hp1 hp2
                  by_contra hne
                  exact hbusy ⟨p, hp1, hp2, hne⟩
                rw [SetupPortMaps_single_fresh eng containerip m w hfit hok hex hused2 hinst
                  hfree] at hS
                simp at hS

/-- The recorded loop is the allocation loop: without the record, it returns
what `allocLoop` returns. -/
theorem allocLoopLog_fst (protocol ip : String) (e : Int) :
    ∀ (n : Nat) (i j : Int) (pm : PortMapper), (e + 1 - i).toNat = n →
      (allocLoopLog protocol ip e i j pm).map Prod.fst = allocLoop protocol ip e i j pm := by
  intro n
  induction n with
  | zero =>
    intro i j pm hn
    have hi : ¬ i ≤ e := by omega
    rw [allocLoopLog, allocLoop, if_neg hi, if_neg hi]
    rfl
  | succ n ih =>
    intro i j pm hn
    have hi : i ≤ e := by omega
    rw [allocLoopLog, allocLoop, if_pos hi, if_pos hi]
    cases hal : pm.AllocateMap protocol i ip j with
    | mk err pm1 =>
      cases err with
      | some err => rfl
      | none =>
        simp only
        by_cases him : i = maxInt
        · simp [him]
        · simp only [if_neg him]
          rw [← ih (i + 1) (wrapInt (j + 1)) pm1 (by omega)]
          cases allocLoopLog protocol ip e (i + 1) (wrapInt (j + 1)) pm1 with
          | none => rfl
          | some r => rfl

/-- The recorded loop returns when the range ends below the largest `int`, and
its record holds at most one call per host port of the range, each with the
container port in lockstep. -/
theorem allocLoopLog_calls (protocol ip : String) (e : Int) (he : e < maxInt) :
    ∀ (n : Nat) (i j : Int) (pm : PortMapper), (e + 1 - i).toNat = n →
      (i < e → minInt ≤ j ∧ j + (e - i) ≤ maxInt) →
      ∃ r log, allocLoopLog protocol ip e i j pm = some (r, log) ∧
        (log.length : Int) ≤ max (e + 1 - i) 0 ∧
        (i ≤ e → 1 ≤ log.length) ∧
        ∀ c ∈ log, i ≤ c.1 ∧ c.1 ≤ e ∧ c.2 = j + (c.1 - i) := by
  intro n
  induction n with
  | zero =>
    intro i j pm hn _
    have hi : ¬ i ≤ e := by omega
    refine ⟨(none, i, pm), [], ?_, ?_, fun h => absurd h hi, fun c hc => by simp at hc⟩
    · rw [allocLoopLog, if_neg hi]
    · simp
  | succ n ih =>
    intro i j pm hn hj
    have hi : i ≤ e := by omega
    have him : i ≠ maxInt := by omega
    rw [allocLoopLog, if_pos hi]
    cases hal : pm.AllocateMap protocol i ip j with
    | mk err pm1 =>
      cases err with
      | some err =>
        refine ⟨(some err, i, pm1), [(i, j)], rfl, ?_, fun _ => by simp, ?_⟩
        · simp only [List.length_singleton, Nat.cast_one]
          omega
        · intro c hc
          simp only [List.mem_singleton] at hc
          subst hc
          simp only [le_refl, hi, true_and]
          omega
      | none =>
        simp only [if_neg him]
        have hw : i < e → wrapInt (j + 1) = j + 1 := by
          intro hlt
          apply wrapInt_of_isInt
          have := hj hlt
          simp only [isInt]
          omega
        obtain ⟨r, log, h1, h2, h3, h4⟩ := ih (i + 1) (wrapInt (j + 1)) pm1 (by omega)
          (by
            intro hlt
            have hlt2 : i < e := by omega
            have := hj hlt2
            rw [hw hlt2]
            omega)
        refine ⟨r, (i, j) :: log, ?_, ?_, fun _ => by simp, ?_⟩
        · rw [h1]
        · simp only [List.length_cons, Nat.cast_add, Nat.cast_one]
          omega
        · intro c hc
          rcases List.mem_cons.mp hc with rfl | hc
          · simp only [le_refl, hi, true_and]
            omega
          · obtain ⟨c1, c2, c3⟩ := h4 c hc
            have hlt : i < e := by omega
            rw [hw hlt] at c3
            refine ⟨by omega, c2, ?_⟩
            omega

/-- The recorded setup loop is the setup loop: without the record, it returns
what `setupLoop` returns, for every list, state and rule engine. -/
theorem setupLoopLog_fst (eng : RuleEngine) (containerip : String) :
    ∀ (maps : List PortMapping) (w : World),
      (setupLoopLog eng containerip maps w).map Prod.fst = setupLoop eng containerip maps w := by
  intro maps
  induction maps with
  | nil =>
    intro w
    rw [setupLoopLog, setupLoop]
    rfl
  | cons m rest ih =>
    intro w
    rw [setupLoopLog, setupLoop]
    cases hok : (generateIptablesArgs containerip m).1.2.2 with
    | some e => rfl
    | none =>
      simp only
      cases hex : PortMapExists "HYPER" (generateIptablesArgs containerip m).1.1 w.chains with
      | true => rfl
      | false =>
        cases hused : PortMapUsed eng "HYPER" (generateIptablesArgs containerip m).2.Protocol
          (generateIptablesArgs containerip m).2.FromPorts.Begin
          (generateIptablesArgs containerip m).2.FromPorts.End w.chains with
        | true => simp
        | false =>
          cases hop : eng.operateError w.chains .Insert "HYPER"
              (generateIptablesArgs containerip m).1.1 with
          | some e => simp [OperatePortMap, hop]
          | none =>
            cases hraw : eng.rawError
                (Chains.mk ((generateIptablesArgs containerip m).1.1 :: w.chains.nat)
                  w.chains.filter)
                ("-I" :: "HYPER" :: (generateIptablesArgs containerip m).1.2.1) with
            | some e => simp [OperatePortMap, hop, Raw, hraw]
            | none =>
              simp only [OperatePortMap, hop, Raw, hraw, Bool.false_eq_true, if_false]
              split
              · rfl
              · have hfst := allocLoopLog_fst (generateIptablesArgs containerip m).2.Protocol
                  containerip (generateIptablesArgs containerip m).2.FromPorts.End _
                  (generateIptablesArgs containerip m).2.FromPorts.Begin
                  (generateIptablesArgs containerip m).2.ToPorts.Begin w.portMapper rfl
                rw [← hfst]
                cases hal : allocLoopLog (generateIptablesArgs containerip m).2.Protocol
                    containerip (generateIptablesArgs containerip m).2.FromPorts.End
                    (generateIptablesArgs containerip m).2.FromPorts.Begin
                    (generateIptablesArgs containerip m).2.ToPorts.Begin w.portMapper with
                | none => rfl
                | some r0 =>
                  obtain ⟨⟨err, i, pm⟩, calls⟩ := r0
                  cases err with
                  | some e =>
                    simp only [Option.map_some']
                    cases deferredRollback (some e)
                        (generateIptablesArgs containerip m).2.Protocol
                        (generateIptablesArgs containerip m).2.FromPorts.Begin i pm with
                    | none => rfl
                    | some pm1 => rfl
                  | none =>
                    simp only [Option.map_some']
                    rw [← ih]
                    cases setupLoopLog eng containerip rest
                        ⟨pm, ⟨(generateIptablesArgs containerip m).1.1 :: w.chains.nat,
                          (generateIptablesArgs containerip m).1.2.1 :: w.chains.filter⟩⟩ with
                    | none => rfl
                    | some r1 => rfl

/-- The recorded function is `SetupPortMaps`: without the record, it returns
what `SetupPortMaps` returns. -/
theorem SetupPortMapsLog_fst (disableIptables : Bool) (eng : RuleEngine) (containerip : String)
    (maps : List PortMapping) (w : World) :
    (SetupPortMapsLog disableIptables eng containerip maps w).map Prod.fst =
      SetupPortMaps disableIptables eng containerip maps w := by
  unfold SetupPortMapsLog SetupPortMaps
  split
  · rfl
  · exact setupLoopLog_fst eng containerip maps w

/-- For a mapping that the generator accepts, the recorded allocation loop
returns on every table and its calls are in range; when every allocation
succeeds, the entries of the table it leaves are those it found and entries in
range; when an allocation fails, the deferred function returns as well and
leaves only entries that the loop found. -/
theorem allocLoopLog_callsInRange (containerip : String) (m : PortMapping) (pm : PortMapper)
    (hfit : m.countersFit) (hok : (generateIptablesArgs containerip m).1.2.2 = none) :
    ∃ r0 calls,
      allocLoopLog (generateIptablesArgs containerip m).2.Protocol containerip
        (generateIptablesArgs containerip m).2.FromPorts.End
        (generateIptablesArgs containerip m).2.FromPorts.Begin
        (generateIptablesArgs containerip m).2.ToPorts.Begin pm = some (r0, calls) ∧
      callsInRange (generateIptablesArgs containerip m).2 calls ∧
      (r0.1 = none → ∀ pr h v, r0.2.2.table pr h = some v →
        pm.table pr h = some v ∨
          entryInRange containerip (generateIptablesArgs containerip m).2 pr h v) ∧
      (∀ e, r0.1 = some e → ∃ pm2,
        deferredRollback (some e) (generateIptablesArgs containerip m).2.Protocol
          (generateIptablesArgs containerip m).2.FromPorts.Begin r0.2.1 r0.2.2 = some pm2 ∧
        ∀ pr h v, pm2.table pr h = some v → pm.table pr h = some v) := by
  obtain ⟨hints, hlo, hhi⟩ := hfit
  obtain ⟨hg, hfle, htle, hlegal⟩ := generateIptablesArgs_ok containerip m hints hok
  have hints2 := hints
  simp only [PortMapping.isInts, isInt] at hints2
  have hte : m.ToPorts.endOrBegin ≤ maxInt := by
    simp only [PortRange.endOrBegin]
    split_ifs <;> omega
  rw [hg]
  dsimp only
  obtain ⟨r0, calls, h1, h2, h3, h4⟩ := allocLoopLog_calls m.Protocol containerip
    m.FromPorts.endOrBegin hhi _ m.FromPorts.Begin m.ToPorts.Begin pm rfl
    (by intro hlt; omega)
  have hfst := allocLoopLog_fst m.Protocol containerip m.FromPorts.endOrBegin _
    m.FromPorts.Begin m.ToPorts.Begin pm rfl
  rw [h1] at hfst
  simp only [Option.map_some'] at hfst
  rw [max_eq_left (by omega)] at h2
  have hcases : (∃ p, m.FromPorts.Begin ≤ p ∧ p ≤ m.FromPorts.endOrBegin ∧
      (∀ h, m.FromPorts.Begin ≤ h → h < p → pm.table m.Protocol h = none) ∧
      pm.table m.Protocol p ≠ none) ∨
      (∀ p, m.FromPorts.Begin ≤ p → p ≤ m.FromPorts.endOrBegin →
        pm.table m.Protocol p = none) := by
    by_cases hbusy : ∃ p, m.FromPorts.Begin ≤ p ∧ p ≤ m.FromPorts.endOrBegin ∧
        pm.table m.Protocol p ≠ none
    · obtain ⟨p0, hp1, hp2, hb0⟩ := hbusy
      obtain ⟨p, hq1, hq2, hb1, hfirst⟩ :=
        exists_first_busy pm m.Protocol m.FromPorts.Begin _ p0 rfl hp1 hb0
      exact Or.inl ⟨p, hq1, by omega, hfirst, hb1⟩
    · right
      intro p hp1 hp2
      by_contra hne
      exact hbusy ⟨p, hp1, hp2, hne⟩
  refine ⟨r0, calls, h1, ⟨h3 hfle, by dsimp only; omega, ?_, ?_⟩, ?_, ?_⟩
  · intro heq
    have := h3 hfle
    dsimp only at heq
    omega
  · intro c hc
    obtain ⟨c1, c2, c3⟩ := h4 c hc
    dsimp only
    refine ⟨c1, c2, ?_, ?_, c3⟩ <;> omega
  · intro hnone pr h v hv
    rcases hcases with ⟨p, hq1, hq2, hfirst, hb1⟩ | hfree
    · obtain ⟨pm1, hal, -⟩ := allocLoop_busy m.Protocol containerip m.FromPorts.endOrBegin p
        hq2 (by omega) _ m.FromPorts.Begin m.ToPorts.Begin pm rfl hq1 hfirst hb1
      rw [hal] at hfst
      simp only [Option.some.injEq] at hfst
      subst hfst
      simp at hnone
    · rw [allocLoop_free m.Protocol containerip m.FromPorts.endOrBegin hhi _
        m.FromPorts.Begin m.ToPorts.Begin pm rfl hfree (by intro hlt; omega)] at hfst
      simp only [Option.some.injEq] at hfst
      subst hfst
      simp only [PortMapper.withRange] at hv
      by_cases hin : pr = m.Protocol ∧ m.FromPorts.Begin ≤ h ∧ h ≤ m.FromPorts.endOrBegin
      · rw [if_pos hin] at hv
        simp only [Option.some.injEq] at hv
        subst hv
        right
        obtain ⟨i1, i2, i3⟩ := hin
        refine ⟨i1, i2, i3, rfl, ?_, ?_, rfl⟩ <;> dsimp only <;> omega
      · rw [if_neg hin] at hv
        exact Or.inl hv
  · intro e he
    rcases hcases with ⟨p, hq1, hq2, hfirst, hb1⟩ | hfree
    · obtain ⟨pm1, hal, hsame⟩ := allocLoop_busy m.Protocol containerip m.FromPorts.endOrBegin p
        hq2 (by omega) _ m.FromPorts.Begin m.ToPorts.Begin pm rfl hq1 hfirst hb1
      rw [hal] at hfst
      simp only [Option.some.injEq] at hfst
      subst hfst
      have hpm : p ≠ minInt := by omega
      simp only [deferredRollback, if_neg hpm]
      refine ⟨_, rollbackLoop_eq m.Protocol m.FromPorts.Begin hlo _ (p - 1) pm1 rfl, ?_⟩
      intro pr h v hv
      simp only [PortMapper.withoutRange] at hv
      by_cases hin : pr = m.Protocol ∧ m.FromPorts.Begin ≤ h ∧ h ≤ p - 1
      · rw [if_pos hin] at hv
        simp at hv
      · rw [if_neg hin] at hv
        rw [← hsame pr h (fun hc => hin ⟨hc.1, hc.2.1, by omega⟩)]
        exact hv
    · rw [allocLoop_free m.Protocol containerip m.FromPorts.endOrBegin hhi _
        m.FromPorts.Begin m.ToPorts.Begin pm rfl hfree (by intro hlt; omega)] at hfst
      simp only [Option.some.injEq] at hfst
      subst hfst
      simp at he

/-- The recorded setup loop returns for every list of mappings whose counters
fit; every item of its record belongs to a mapping of the list that the
generator accepts and holds calls in range; the record has at most one item
for each mapping; when the first mapping reaches its allocation loop, the
record starts with the calls for that mapping; and every entry of the table
afterwards was there before or is an entry in range for a mapping of the list
that the generator accepts. -/
theorem setupLoopLog_calls (eng : RuleEngine) (containerip : String) :
    ∀ (maps : List PortMapping) (w : World), (∀ m ∈ maps, m.countersFit) →
      ∃ r log, setupLoopLog eng containerip maps w = some (r, log) ∧
        (∀ e ∈ log, (∃ m0 ∈ maps, (generateIptablesArgs containerip m0).1.2.2 = none ∧
            e.1 = (generateIptablesArgs containerip m0).2) ∧ callsInRange e.1 e.2) ∧
        log.length ≤ maps.length ∧
        (∀ m rest, maps = m :: rest →
          (generateIptablesArgs containerip m).1.2.2 = none →
          PortMapExists "HYPER" (generateIptablesArgs containerip m).1.1 w.chains = false →
          PortMapUsed eng "HYPER" (generateIptablesArgs containerip m).2.Protocol
            (generateIptablesArgs containerip m).2.FromPorts.Begin
            (generateIptablesArgs containerip m).2.FromPorts.End w.chains = false →
          installsRules eng (generateIptablesArgs containerip m).1.1
            (generateIptablesArgs containerip m).1.2.1 w.chains →
          ∃ calls tail, log = ((generateIptablesArgs containerip m).2, calls) :: tail) ∧
        (∀ pr h v, r.2.2.portMapper.table pr h = some v →
          w.portMapper.table pr h = some v ∨
            ∃ m0 ∈ maps, (generateIptablesArgs containerip m0).1.2.2 = none ∧
              entryInRange containerip (generateIptablesArgs containerip m0).2 pr h v) := by
  intro maps
  induction maps with
  | nil =>
    intro w _
    refine ⟨(none, [], w), [], by rw [setupLoopLog], fun e he => by simp at he, le_refl _,
      fun m rest h => by simp at h, fun pr h v hv => Or.inl hv⟩
  | cons m rest ih =>
    intro w hfit
    have hfitm := hfit m (List.mem_cons_self _ _)
    have hfitr : ∀ m' ∈ rest, m'.countersFit := fun m' hm' => hfit m' (List.mem_cons_of_mem _ hm')
    rw [setupLoopLog]
    cases hok : (generateIptablesArgs containerip m).1.2.2 with
    | some e =>
      refine ⟨_, [], rfl, fun e he => by simp at he, Nat.zero_le _, ?_, fun pr h v hv => Or.inl hv⟩
      intro m' rest' hc hok'
      simp only [List.cons.injEq] at hc
      obtain ⟨rfl, rfl⟩ := hc
      rw [hok] at hok'
      simp at hok'
    | none =>
      simp only
      cases hex : PortMapExists "HYPER" (generateIptablesArgs containerip m).1.1 w.chains with
      | true =>
        refine ⟨_, [], rfl, fun e he => by simp at he, Nat.zero_le _, ?_,
          fun pr h v hv => Or.inl hv⟩
        intro m' rest' hc _ hnew'
        simp only [List.cons.injEq] at hc
        obtain ⟨rfl, rfl⟩ := hc
        rw [hex] at hnew'
        simp at hnew'
      | false =>
        cases hused : PortMapUsed eng "HYPER" (generateIptablesArgs containerip m).2.Protocol
          (generateIptablesArgs containerip m).2.FromPorts.Begin
          (generateIptablesArgs containerip m).2.FromPorts.End w.chains with
        | true =>
          simp only [if_true]
          refine ⟨_, [], rfl, fun e he => by simp at he, Nat.zero_le _, ?_,
            fun pr h v hv => Or.inl hv⟩
          intro m' rest' hc _ _ hun'
          simp only [List.cons.injEq] at hc
          obtain ⟨rfl, rfl⟩ := hc
          rw [hused] at hun'
          simp at hun'
        | false =>
          cases hop : eng.operateError w.chains .Insert "HYPER"
              (generateIptablesArgs containerip m).1.1 with
          | some e =>
            simp only [OperatePortMap, hop, Bool.false_eq_true, if_false]
            refine ⟨_, [], rfl, fun e he => by simp at he, Nat.zero_le _, ?_,
              fun pr h v hv => Or.inl hv⟩
            intro m' rest' hc _ _ _ hinst'
            simp only [List.cons.injEq] at hc
            obtain ⟨rfl, rfl⟩ := hc
            rw [installsRules, hop] at hinst'
            simp at hinst'
          | none =>
            cases hraw : eng.rawError
                (Chains.mk ((generateIptablesArgs containerip m).1.1 :: w.chains.nat)
                  w.chains.filter)
                ("-I" :: "HYPER" :: (generateIptablesArgs containerip m).1.2.1) with
            | some e =>
              simp only [OperatePortMap, hop, Raw, hraw, Bool.false_eq_true, if_false]
              refine ⟨_, [], rfl, fun e he => by simp at he, Nat.zero_le _, ?_,
                fun pr h v hv => Or.inl hv⟩
              intro m' rest' hc _ _ _ hinst'
              simp only [List.cons.injEq] at hc
              obtain ⟨rfl, rfl⟩ := hc
              rw [installsRules, hraw] at hinst'
              simp at hinst'
            | none =>
              simp only [OperatePortMap, hop, Raw, hraw, Bool.false_eq_true, if_false]
              split
              · rename_i hlen
                refine ⟨_, [], rfl, fun e he => by simp at he, Nat.zero_le _, ?_,
                  fun pr h v hv => Or.inl hv⟩
                intro m' rest' hc _ _ _ hinst'
                simp only [List.cons.injEq] at hc
                obtain ⟨rfl, rfl⟩ := hc
                have hout := hinst'.2.2
                exact absurd (by rw [hout]; rfl) hlen
              · obtain ⟨r0, calls, hal, hcalls, hsucc, hroll⟩ :=
                  allocLoopLog_callsInRange containerip m w.portMapper hfitm hok
                obtain ⟨err, i, pm⟩ := r0
                rw [hal]
                cases err with
                | some e =>
                  obtain ⟨pm2, hpm2, hold⟩ := hroll e rfl
                  simp only at hpm2
                  simp only [hpm2]
                  refine ⟨_, _, rfl, ?_, by simp, ?_, fun pr h v hv => Or.inl (hold pr h v hv)⟩
                  · intro x hx
                    simp only [List.mem_singleton] at hx
                    subst hx
                    exact ⟨⟨m, List.mem_cons_self _ _, hok, rfl⟩, hcalls⟩
                  · intro m' rest' hc _ _ _ _
                    simp only [List.cons.injEq] at hc
                    obtain ⟨rfl, rfl⟩ := hc
                    exact ⟨calls, [], rfl⟩
                | none =>
                  obtain ⟨r1, log1, h1, h2, hlen1, -, htab1⟩ := ih
                    ⟨pm, ⟨(generateIptablesArgs containerip m).1.1 :: w.chains.nat,
                      (generateIptablesArgs containerip m).1.2.1 :: w.chains.filter⟩⟩ hfitr
                  obtain ⟨err1, rest1, w1⟩ := r1
                  simp only [h1]
                  refine ⟨_, _, rfl, ?_, by simpa using hlen1, ?_, ?_⟩
                  · intro x hx
                    rcases List.mem_cons.mp hx with rfl | hx
                    · exact ⟨⟨m, List.mem_cons_self _ _, hok, rfl⟩, hcalls⟩
                    · obtain ⟨⟨m0, hm0, hm0ok, hm0eq⟩, hcr⟩ := h2 x hx
                      exact ⟨⟨m0, List.mem_cons_of_mem _ hm0, hm0ok, hm0eq⟩, hcr⟩
                  · intro m' rest' hc _ _ _ _
                    simp only [List.cons.injEq] at hc
                    obtain ⟨rfl, rfl⟩ := hc
                    exact ⟨calls, log1, rfl⟩
                  · intro pr h v hv
                    rcases htab1 pr h v hv with hmid | ⟨m0, hm0, hm0ok, hm0in⟩
                    · rcases hsucc rfl pr h v hmid with hw | hin
                      · exact Or.inl hw
                      · exact Or.inr ⟨m, List.mem_cons_self _ _, hok, hin⟩
                    · exact Or.inr ⟨m0, List.mem_cons_of_mem _ hm0, hm0ok, hm0in⟩

/-! ## Properties of the rule generator -/

/-- C1: `generateIptablesArgs` returns an error exactly when the host range is
inverted, or the container range is inverted, or (an `End` of 0 read as
`Begin`) the host span is neither 0 nor the container span; with an error both
argument lists are empty, and without one both lists are returned in full. -/
theorem generateIptablesArgs_error_iff (containerip : String) (m : PortMapping)
    (hm : m.isInts) :
    ((generateIptablesArgs containerip m).1.2.2 ≠ none ↔
      ((m.FromPorts.End ≠ 0 ∧ m.FromPorts.End < m.FromPorts.Begin) ∨
       (m.ToPorts.End ≠ 0 ∧ m.ToPorts.End < m.ToPorts.Begin) ∨
       (m.FromPorts.endOrBegin - m.FromPorts.Begin ≠ 0 ∧
        m.FromPorts.endOrBegin - m.FromPorts.Begin ≠ m.ToPorts.endOrBegin - m.ToPorts.Begin))) ∧
    ((generateIptablesArgs containerip m).1.2.2 ≠ none →
      (generateIptablesArgs containerip m).1.1 = [] ∧
      (generateIptablesArgs containerip m).1.2.1 = []) ∧
    ((generateIptablesArgs containerip m).1.2.2 = none →
      (generateIptablesArgs containerip m).1.1.length = 10 ∧
      (generateIptablesArgs containerip m).1.2.1.length = 10) := by
  obtain ⟨proto, ⟨tb, te⟩, ⟨fb, fe⟩⟩ := m
  simp only [PortMapping.isInts, isInt, minInt, maxInt] at hm
  simp only [PortRange.endOrBegin]
  have hw0 : wrapInt 0 = 0 := by decide
  by_cases h1 : fe = 0 ∨ fe = fb
  · have hfe : (if fe = 0 then fb else fe) = fb := by split_ifs <;> omega
    rw [hfe]
    by_cases h2 : te = 0 ∨ te = tb
    · simp [generateIptablesArgs, h1, h2, hw0]
      omega
    · by_cases h3 : te > tb
      · simp [generateIptablesArgs, h1, h2, h3, hw0]
        omega
      · simp [generateIptablesArgs, h1, h2, h3]
        omega
  · by_cases h0 : fe > fb
    · have hfe : (if fe = 0 then fb else fe) = fe := by split_ifs <;> omega
      rw [hfe]
      have h4 : wrapInt (fe - fb) ≠ 0 := by simp only [wrapInt]; omega
      by_cases h2 : te = 0 ∨ te = tb
      · have hte : (if te = 0 then tb else te) = tb := by split_ifs <;> omega
        rw [hte]
        have h5 : wrapInt (fe - fb) ≠ wrapInt 0 := by rw [hw0]; exact h4
        simp [generateIptablesArgs, h1, h2, h0, h4, h5]
        omega
      · by_cases h3 : te > tb
        · have hte : (if te = 0 then tb else te) = te := by split_ifs <;> omega
          rw [hte]
          by_cases h5 : wrapInt (fe - fb) = wrapInt (te - tb)
          · simp [generateIptablesArgs, h1, h2, h3, h0, h4, h5]
            simp only [wrapInt] at h5
            omega
          · simp [generateIptablesArgs, h1, h2, h3, h0, h4, h5]
            simp only [wrapInt] at h5
            omega
        · simp [generateIptablesArgs, h1, h2, h3, h0]
          omega
    · simp [generateIptablesArgs, h1, h0]
      omega

/-- Witness for C1: the 1:1 mapping of host port 8080 to container port 80. -/
theorem generateIptablesArgs_error_iff_witness :
    (PortMapping.mk "tcp" ⟨80, 0⟩ ⟨8080, 0⟩).isInts ∧
    ((generateIptablesArgs "10.0.0.2" ⟨"tcp", ⟨80, 0⟩, ⟨8080, 0⟩⟩).1.2.2 = none →
      (generateIptablesArgs "10.0.0.2" ⟨"tcp", ⟨80, 0⟩, ⟨8080, 0⟩⟩).1.1.length = 10 ∧
      (generateIptablesArgs "10.0.0.2" ⟨"tcp", ⟨80, 0⟩, ⟨8080, 0⟩⟩).1.2.1.length = 10) :=
  ⟨by decide,
    (generateIptablesArgs_error_iff "10.0.0.2" ⟨"tcp", ⟨80, 0⟩, ⟨8080, 0⟩⟩ (by decide)).2.2⟩

/-- C6: on the mapping of host ports 8000-8010 to container ports 80-90 the
redirect arguments carry the printed form of the `*PortRange` in place of the
first port: the destination-port match is `&{8000 8010}:8010` and the redirect
target `10.0.0.2:&{80 90}-90`, not `8000:8010` and `10.0.0.2:80-90`. -/
theorem generateIptablesArgs_range_prints_pointer :
    (generateIptablesArgs "10.0.0.2" ⟨"tcp", ⟨80, 90⟩, ⟨8000, 8010⟩⟩).1 =
      (["-p", "tcp", "-m", "tcp", "--dport", "&\x7b8000 8010\x7d:8010", "-j", "DNAT",
        "--to-destination", "10.0.0.2:&\x7b80 90\x7d-90"],
       ["-d", "10.0.0.2", "-p", "tcp", "-m", "tcp", "--dport", "10.0.0.2:&\x7b80 90\x7d-90",
        "-j", "ACCEPT"], none) ∧
    (generateIptablesArgs "10.0.0.2" ⟨"tcp", ⟨80, 90⟩, ⟨8000, 8010⟩⟩).1.1 ≠
      ["-p", "tcp", "-m", "tcp", "--dport", "8000:8010", "-j", "DNAT",
        "--to-destination", "10.0.0.2:80-90"] := by
  constructor
  · rfl
  · decide

/-- C7: on the 1:1 mapping of host port 8080 to container port 80 the
forwarding-permit arguments give `--dport` the redirect target `10.0.0.2:80`,
an address, and not the container port `80`. -/
theorem generateIptablesArgs_filter_dport_is_target :
    (generateIptablesArgs "10.0.0.2" ⟨"tcp", ⟨80, 80⟩, ⟨8080, 8080⟩⟩).1.2.1 =
      ["-d", "10.0.0.2", "-p", "tcp", "-m", "tcp", "--dport", "10.0.0.2:80", "-j", "ACCEPT"] ∧
    (generateIptablesArgs "10.0.0.2" ⟨"tcp", ⟨80, 80⟩, ⟨8080, 8080⟩⟩).1.2.1 ≠
      ["-d", "10.0.0.2", "-p", "tcp", "-m", "tcp", "--dport", "80", "-j", "ACCEPT"] := by
  constructor
  · rfl
  · decide

/-- C8: for an IPv4 container address and a mapping of a single host port to a
single container port, `generateIptablesArgs` succeeds and the redirect
arguments are `-p p -m p --dport P -j DNAT --to-destination ip:Q`, with `p`
being `udp` when the protocol is `udp` in any letter case (one of its eight
spellings) and `tcp` otherwise. -/
theorem generateIptablesArgs_single_port (containerip : String) (m : PortMapping)
    (hcolon : ':' ∉ containerip.data) (_hpercent : '%' ∉ containerip.data)
    (hfrom : m.FromPorts.End = 0 ∨ m.FromPorts.End = m.FromPorts.Begin)
    (hto : m.ToPorts.End = 0 ∨ m.ToPorts.End = m.ToPorts.Begin) :
    (generateIptablesArgs containerip m).1.2.2 = none ∧
    (generateIptablesArgs containerip m).1.1 =
      ["-p", if EqualFold m.Protocol "udp" then "udp" else "tcp",
       "-m", if EqualFold m.Protocol "udp" then "udp" else "tcp",
       "--dport", Itoa m.FromPorts.Begin, "-j", "DNAT",
       "--to-destination", containerip ++ ":" ++ Itoa m.ToPorts.Begin] ∧
    (EqualFold m.Protocol "udp" = true ↔
      m.Protocol ∈ ["udp", "udP", "uDp", "uDP", "Udp", "UdP", "UDp", "UDP"]) := by
  have hj : ∀ port, JoinHostPort containerip port = containerip ++ ":" ++ port := by
    intro port
    simp [JoinHostPort, hcolon]
  refine ⟨?_, ?_, EqualFold_udp_iff m.Protocol⟩
  · simp [generateIptablesArgs, hfrom, hto, hj, wrapInt]
  · simp [generateIptablesArgs, hfrom, hto, hj, wrapInt]

/-- Witness for C8: UDP host port 53 to container port 5353, with the protocol
written in capitals and both `End` fields left at 0. -/
theorem generateIptablesArgs_single_port_witness :
    (generateIptablesArgs "172.17.0.5" ⟨"UDP", ⟨5353, 0⟩, ⟨53, 0⟩⟩).1.1 =
      ["-p", "udp", "-m", "udp", "--dport", "53", "-j", "DNAT",
       "--to-destination", "172.17.0.5:5353"] :=
  (generateIptablesArgs_single_port "172.17.0.5" ⟨"UDP", ⟨5353, 0⟩, ⟨53, 0⟩⟩
    (by decide) (by decide) (by decide) (by decide)).2.1

/-! ## Properties of the orchestrator -/

/-- C2: for a single legal mapping whose rules install, if the allocation of a
host port of the range fails, `SetupPortMaps` returns the error of the first
failing allocation and the allocation table after the call is the table before
the call: every port allocated earlier for the mapping has been released. -/
theorem SetupPortMaps_allocation_failure_rolls_back (eng : RuleEngine) (containerip : String)
    (m : PortMapping) (w : World) (hfit : m.countersFit)
    (hok : (generateIptablesArgs containerip m).1.2.2 = none)
    (hnew : PortMapExists "HYPER" (generateIptablesArgs containerip m).1.1 w.chains = false)
    (hunused : PortMapUsed eng "HYPER" m.Protocol m.FromPorts.Begin m.FromPorts.endOrBegin
      w.chains = false)
    (hinst : installsRules eng (generateIptablesArgs containerip m).1.1
      (generateIptablesArgs containerip m).1.2.1 w.chains)
    (hfail : ∃ p, m.FromPorts.Begin ≤ p ∧ p ≤ m.FromPorts.endOrBegin ∧
      w.portMapper.table m.Protocol p ≠ none) :
    ∃ p ms w1, m.FromPorts.Begin ≤ p ∧ p ≤ m.FromPorts.endOrBegin ∧
      (∀ h, m.FromPorts.Begin ≤ h → h < p → w.portMapper.table m.Protocol h = none) ∧
      (w.portMapper.AllocateMap m.Protocol p containerip
        (m.ToPorts.Begin + (p - m.FromPorts.Begin))).1 = some (.alreadyAllocated m.Protocol p) ∧
      SetupPortMaps false eng containerip [m] w =
        some (some (.alreadyAllocated m.Protocol p), ms, w1) ∧
      w1.portMapper = w.portMapper := by
  obtain ⟨p0, hp1, hp2, hbusy0⟩ := hfail
  obtain ⟨p, hq1, hq2, hbusy, hfirst⟩ :=
    exists_first_busy w.portMapper m.Protocol m.FromPorts.Begin _ p0 rfl hp1 hbusy0
  refine ⟨p, _, _, hq1, by omega, hfirst, ?_,
    SetupPortMaps_single_busy eng containerip m w hfit hok hnew hunused hinst p hq1 (by omega)
      hbusy hfirst, rfl⟩
  rw [AllocateMap_busy _ _ _ _ _ hbusy]

/-- Witness for C2: host ports 8000-8004 to container ports 80-84 with the
third host port, 8002, already in the table: the allocation of 8002 fails and
the table is restored. -/
theorem SetupPortMaps_allocation_failure_rolls_back_witness :
    ∃ p ms w1, (8000 : Int) ≤ p ∧ p ≤ 8004 ∧
      (∀ h, (8000 : Int) ≤ h → h < p → tableWith8002.table "tcp" h = none) ∧
      (tableWith8002.AllocateMap "tcp" p "10.0.0.2" (80 + (p - 8000))).1 =
        some (.alreadyAllocated "tcp" p) ∧
      SetupPortMaps false quietEngine "10.0.0.2" [⟨"tcp", ⟨80, 84⟩, ⟨8000, 8004⟩⟩]
        ⟨tableWith8002, ⟨[], []⟩⟩ = some (some (.alreadyAllocated "tcp" p), ms, w1) ∧
      w1.portMapper = tableWith8002 :=
  SetupPortMaps_allocation_failure_rolls_back quietEngine "10.0.0.2"
    ⟨"tcp", ⟨80, 84⟩, ⟨8000, 8004⟩⟩ ⟨tableWith8002, ⟨[], []⟩⟩
    (by decide) (by decide) (by decide) (by decide) (by decide)
    ⟨8002, by decide, by decide, by decide⟩

/-- C3, counterexample: host port 8080 is in the allocation table, held by
another container, while the redirect chain is empty. `SetupPortMaps` for the
mapping 8080 -> 80 returns the allocation error, but only after it has
inserted the redirect rule and the forwarding-permit rule, which stay in the
chains: the firewall state is not the one before the call. -/
theorem SetupPortMaps_busy_port_installs_rules :
    tableWith8080.table "tcp" 8080 = some ("10.0.0.9", 80) ∧
    (SetupPortMaps false quietEngine "10.0.0.2" [⟨"tcp", ⟨80, 0⟩, ⟨8080, 0⟩⟩]
        ⟨tableWith8080, ⟨[], []⟩⟩).map (fun r => (r.1, r.2.2.chains)) =
      some (some (.alreadyAllocated "tcp" 8080),
        ⟨[["-p", "tcp", "-m", "tcp", "--dport", "8080", "-j", "DNAT",
            "--to-destination", "10.0.0.2:80"]],
         [["-d", "10.0.0.2", "-p", "tcp", "-m", "tcp", "--dport", "10.0.0.2:80",
            "-j", "ACCEPT"]]⟩) ∧
    (⟨[["-p", "tcp", "-m", "tcp", "--dport", "8080", "-j", "DNAT",
            "--to-destination", "10.0.0.2:80"]],
         [["-d", "10.0.0.2", "-p", "tcp", "-m", "tcp", "--dport", "10.0.0.2:80",
            "-j", "ACCEPT"]]⟩ : Chains) ≠ ⟨[], []⟩ := by
  refine ⟨by decide, ?_, by decide⟩
  rw [SetupPortMaps_single_busy quietEngine "10.0.0.2" ⟨"tcp", ⟨80, 0⟩, ⟨8080, 0⟩⟩
    ⟨tableWith8080, ⟨[], []⟩⟩ (by decide) (by decide) (by decide) (by decide) (by decide)
    8080 (by decide) (by decide) (by decide)
    (fun h h1 h2 => by exfalso; change (8080 : Int) ≤ h at h1; omega)]
  rfl

/-- C3, as the code has it: when a host port of the range is already in the
allocation table and the redirect rule of the mapping is not yet installed,
`SetupPortMaps` returns an error and leaves the allocation table as it was. The
chains are left as they were when the arguments do not generate or when the
chain query `PortMapUsed` reports the host range in use; when the query does
not report it and the engine installs the rules, both rules are in the chains
after the call. -/
theorem SetupPortMaps_table_conflict (eng : RuleEngine) (containerip : String)
    (m : PortMapping) (w : World) (hfit : m.countersFit)
    (hnew : PortMapExists "HYPER" (generateIptablesArgs containerip m).1.1 w.chains = false)
    (hbusy : ∃ p, m.FromPorts.Begin ≤ p ∧ p ≤ m.FromPorts.endOrBegin ∧
      w.portMapper.table m.Protocol p ≠ none) :
    ∃ err ms w1, SetupPortMaps false eng containerip [m] w = some (some err, ms, w1) ∧
      w1.portMapper = w.portMapper ∧
      (((generateIptablesArgs containerip m).1.2.2 ≠ none ∨
          PortMapUsed eng "HYPER" m.Protocol m.FromPorts.Begin m.FromPorts.endOrBegin
            w.chains = true) → w1.chains = w.chains) ∧
      ((generateIptablesArgs containerip m).1.2.2 = none →
        PortMapUsed eng "HYPER" m.Protocol m.FromPorts.Begin m.FromPorts.endOrBegin
          w.chains = false →
        installsRules eng (generateIptablesArgs containerip m).1.1
          (generateIptablesArgs containerip m).1.2.1 w.chains →
        w1.chains = w.chains.withRules (generateIptablesArgs containerip m).1.1
          (generateIptablesArgs containerip m).1.2.1) := by
  cases hok : (generateIptablesArgs containerip m).1.2.2 with
  | some e =>
    refine ⟨e, [(generateIptablesArgs containerip m).2], w, ?_, rfl, fun _ => rfl,
      fun h => by simp at h⟩
    simp only [SetupPortMaps, setupLoop, hok]
    rfl
  | none =>
    obtain ⟨hg, -, -, -⟩ := generateIptablesArgs_ok containerip m hfit.1 hok
    have hp : (generateIptablesArgs containerip m).2.Protocol = m.Protocol := by rw [hg]
    have hb : (generateIptablesArgs containerip m).2.FromPorts.Begin = m.FromPorts.Begin := by
      rw [hg]
    have he : (generateIptablesArgs containerip m).2.FromPorts.End = m.FromPorts.endOrBegin := by
      rw [hg]
    cases hused : PortMapUsed eng "HYPER" m.Protocol m.FromPorts.Begin m.FromPorts.endOrBegin
        w.chains with
    | true =>
      refine ⟨.errorf ("Host port " ++ (generateIptablesArgs containerip m).2.FromPorts.fmt
        ++ " has aleady been used"), [(generateIptablesArgs containerip m).2], w, ?_, rfl,
        fun _ => rfl, fun _ h => by simp at h⟩
      simp only [SetupPortMaps, setupLoop, hok, hnew, hp, hb, he, hused]
      rfl
    | false =>
      cases hop : eng.operateError w.chains .Insert "HYPER" (generateIptablesArgs containerip m).1.1 with
      | some e =>
        refine ⟨e, [(generateIptablesArgs containerip m).2], ⟨w.portMapper, w.chains⟩, ?_, rfl,
          fun h => ?_, fun _ _ h => ?_⟩
        · simp only [SetupPortMaps, setupLoop, hok, hnew, hp, hb, he, hused, OperatePortMap, hop]
          rfl
        · simp at h
        · rw [installsRules, hop] at h
          simp at h
      | none =>
        cases hraw : eng.rawError
            (Chains.mk ((generateIptablesArgs containerip m).1.1 :: w.chains.nat) w.chains.filter)
            ("-I" :: "HYPER" :: (generateIptablesArgs containerip m).1.2.1) with
        | some e =>
          refine ⟨.errorf ("Unable to setup forward rule in HYPER chain: " ++ e.message),
            [(generateIptablesArgs containerip m).2],
            ⟨w.portMapper,
              (Chains.mk ((generateIptablesArgs containerip m).1.1 :: w.chains.nat) w.chains.filter)⟩,
            ?_, rfl, fun h => ?_, fun _ _ h => ?_⟩
          · simp only [SetupPortMaps, setupLoop, hok, hnew, hp, hb, he, hused, OperatePortMap, hop,
              Raw, hraw]
            rfl
          · simp at h
          · rw [installsRules, hraw] at h
            simp at h
        | none =>
          by_cases hout : eng.rawOutput
            (Chains.mk ((generateIptablesArgs containerip m).1.1 :: w.chains.nat) w.chains.filter)
            ("-I" :: "HYPER" :: (generateIptablesArgs containerip m).1.2.1) = ""
          · obtain ⟨p0, hp1, hp2, hbusy0⟩ := hbusy
            obtain ⟨p, hq1, hq2, hbusy1, hfirst⟩ :=
              exists_first_busy w.portMapper m.Protocol m.FromPorts.Begin _ p0 rfl hp1 hbusy0
            exact ⟨_, _, _, SetupPortMaps_single_busy eng containerip m w hfit hok hnew hused
              ⟨hop, hraw, hout⟩ p hq1 (by omega) hbusy1 hfirst, rfl, fun h => by simp at h,
              fun _ _ _ => rfl⟩
          · refine ⟨.chainError "HYPER" (eng.rawOutput
                (Chains.mk ((generateIptablesArgs containerip m).1.1 :: w.chains.nat) w.chains.filter)
                ("-I" :: "HYPER" :: (generateIptablesArgs containerip m).1.2.1)),
              [(generateIptablesArgs containerip m).2],
              ⟨w.portMapper, w.chains.withRules (generateIptablesArgs containerip m).1.1
                (generateIptablesArgs containerip m).1.2.1⟩,
              ?_, rfl, fun h => ?_, fun _ _ h => ?_⟩
            · simp only [SetupPortMaps, setupLoop, hok, hnew, hp, hb, he, hused, OperatePortMap,
                hop, Raw, hraw]
              have hlen : (eng.rawOutput
                (Chains.mk ((generateIptablesArgs containerip m).1.1 :: w.chains.nat) w.chains.filter)
                ("-I" :: "HYPER" :: (generateIptablesArgs containerip m).1.2.1)).length ≠ 0 := by
                intro h0
                exact hout (String_eq_empty_of_length h0)
              rw [if_pos hlen]
              rfl
            · simp at h
            · exact absurd h.2.2 hout

/-- Witness for C3: host port 8080 held by another container, empty chains; the
chain query does not report the port, so the call fails at the allocation. -/
theorem SetupPortMaps_table_conflict_witness :
    ∃ err ms w1, SetupPortMaps false quietEngine "10.0.0.2" [⟨"tcp", ⟨80, 0⟩, ⟨8080, 0⟩⟩]
        ⟨tableWith8080, ⟨[], []⟩⟩ = some (some err, ms, w1) ∧
      w1.portMapper = tableWith8080 ∧
      (((generateIptablesArgs "10.0.0.2" ⟨"tcp", ⟨80, 0⟩, ⟨8080, 0⟩⟩).1.2.2 ≠ none ∨
          PortMapUsed quietEngine "HYPER" "tcp" 8080 8080 ⟨[], []⟩ = true) →
        w1.chains = ⟨[], []⟩) ∧
      ((generateIptablesArgs "10.0.0.2" ⟨"tcp", ⟨80, 0⟩, ⟨8080, 0⟩⟩).1.2.2 = none →
        PortMapUsed quietEngine "HYPER" "tcp" 8080 8080 ⟨[], []⟩ = false →
        installsRules quietEngine (generateIptablesArgs "10.0.0.2" ⟨"tcp", ⟨80, 0⟩, ⟨8080, 0⟩⟩).1.1
          (generateIptablesArgs "10.0.0.2" ⟨"tcp", ⟨80, 0⟩, ⟨8080, 0⟩⟩).1.2.1 ⟨[], []⟩ →
        w1.chains = (Chains.mk [] []).withRules
          (generateIptablesArgs "10.0.0.2" ⟨"tcp", ⟨80, 0⟩, ⟨8080, 0⟩⟩).1.1
          (generateIptablesArgs "10.0.0.2" ⟨"tcp", ⟨80, 0⟩, ⟨8080, 0⟩⟩).1.2.1) :=
  SetupPortMaps_table_conflict quietEngine "10.0.0.2" ⟨"tcp", ⟨80, 0⟩, ⟨8080, 0⟩⟩
    ⟨tableWith8080, ⟨[], []⟩⟩ (by decide) (by decide) ⟨8080, by decide, by decide, by decide⟩

/-- C4: after a first `SetupPortMaps` of a mapping has succeeded, a second call
with the same container address and the same mapping (as the first call left
it, or as it was given to the first call) returns success and changes nothing:
the allocation table and the chains are those the first call left, whatever
the rule engine would answer; the table, a map, holds one entry per host
port. -/
theorem SetupPortMaps_twice (disableIptables : Bool) (eng eng2 : RuleEngine)
    (containerip : String) (m : PortMapping) (w w1 : World) (ms1 : List PortMapping)
    (hfirst : SetupPortMaps disableIptables eng containerip [m] w = some (none, ms1, w1)) :
    SetupPortMaps disableIptables eng2 containerip ms1 w1 = some (none, ms1, w1) ∧
    SetupPortMaps disableIptables eng2 containerip [m] w1 = some (none, ms1, w1) := by
  cases disableIptables with
  | true =>
    simp only [SetupPortMaps, Bool.true_or, if_true, Option.some.injEq, Prod.mk.injEq,
      true_and] at hfirst
    obtain ⟨rfl, rfl⟩ := hfirst
    simp [SetupPortMaps]
  | false =>
    have hfirst2 : setupLoop eng containerip [m] w = some (none, ms1, w1) := by
      simpa [SetupPortMaps] using hfirst
    obtain ⟨hok, hms, hex, -, -⟩ := setupLoop_single_success eng containerip m w w1 ms1 hfirst2
    subst hms
    constructor
    · simp only [SetupPortMaps, setupLoop, generateIptablesArgs_idem, hok, hex]
      rfl
    · simp only [SetupPortMaps, setupLoop, hok, hex]
      rfl

/-- Witness for C4: the mapping 8080 -> 80 set up on an empty table and empty
chains, and then set up again. -/
theorem SetupPortMaps_twice_witness :
    SetupPortMaps false quietEngine "10.0.0.2" [⟨"tcp", ⟨80, 0⟩, ⟨8080, 0⟩⟩]
        ⟨PortMapper.New, ⟨[], []⟩⟩ =
      some (none, [⟨"tcp", ⟨80, 80⟩, ⟨8080, 8080⟩⟩],
        ⟨PortMapper.New.withRange "tcp" "10.0.0.2" 8080 8080 80,
          ⟨[["-p", "tcp", "-m", "tcp", "--dport", "8080", "-j", "DNAT",
              "--to-destination", "10.0.0.2:80"]],
           [["-d", "10.0.0.2", "-p", "tcp", "-m", "tcp", "--dport", "10.0.0.2:80",
              "-j", "ACCEPT"]]⟩⟩) ∧
    SetupPortMaps false quietEngine "10.0.0.2" [⟨"tcp", ⟨80, 80⟩, ⟨8080, 8080⟩⟩]
        ⟨PortMapper.New.withRange "tcp" "10.0.0.2" 8080 8080 80,
          ⟨[["-p", "tcp", "-m", "tcp", "--dport", "8080", "-j", "DNAT",
              "--to-destination", "10.0.0.2:80"]],
           [["-d", "10.0.0.2", "-p", "tcp", "-m", "tcp", "--dport", "10.0.0.2:80",
              "-j", "ACCEPT"]]⟩⟩ =
      some (none, [⟨"tcp", ⟨80, 80⟩, ⟨8080, 8080⟩⟩],
        ⟨PortMapper.New.withRange "tcp" "10.0.0.2" 8080 8080 80,
          ⟨[["-p", "tcp", "-m", "tcp", "--dport", "8080", "-j", "DNAT",
              "--to-destination", "10.0.0.2:80"]],
           [["-d", "10.0.0.2", "-p", "tcp", "-m", "tcp", "--dport", "10.0.0.2:80",
              "-j", "ACCEPT"]]⟩⟩) :=
  have hfirst := SetupPortMaps_single_fresh quietEngine "10.0.0.2" ⟨"tcp", ⟨80, 0⟩, ⟨8080, 0⟩⟩
    ⟨PortMapper.New, ⟨[], []⟩⟩ (by decide) (by decide) (by decide) (by decide) (by decide)
    (fun _ _ _ => rfl)
  ⟨hfirst, (SetupPortMaps_twice false quietEngine quietEngine "10.0.0.2"
    ⟨"tcp", ⟨80, 0⟩, ⟨8080, 0⟩⟩ ⟨PortMapper.New, ⟨[], []⟩⟩ _ _ hfirst).1⟩

/-- C5: round trip. For a mapping with protocol `tcp` or `udp` whose redirect
rule is not installed, a successful `SetupPortMaps` followed by
`ReleasePortMaps` with the same container address and the mapping as setup left
it returns success and gives back the allocation table and the chains as they
were before the setup, provided the rule engine carries out the two removals. -/
theorem SetupPortMaps_ReleasePortMaps_round_trip (disableIptables : Bool)
    (eng eng2 : RuleEngine) (containerip : String) (m : PortMapping) (w w1 : World)
    (ms1 : List PortMapping)
    (hproto : m.Protocol = "tcp" ∨ m.Protocol = "udp") (hfit : m.countersFit)
    (hnew : PortMapExists "HYPER" (generateIptablesArgs containerip m).1.1 w.chains = false)
    (hsetup : SetupPortMaps disableIptables eng containerip [m] w = some (none, ms1, w1))
    (hdel : ∀ c rule, eng2.operateError c .Delete "HYPER" rule = none)
    (hraw : ∀ c args, eng2.rawError c args = none) :
    ∃ ms2, ReleasePortMaps disableIptables eng2 containerip ms1 w1 = some (none, ms2, w) := by
  cases disableIptables with
  | true =>
    simp only [SetupPortMaps, Bool.true_or, if_true, Option.some.injEq, Prod.mk.injEq,
      true_and] at hsetup
    obtain ⟨rfl, rfl⟩ := hsetup
    exact ⟨[m], by simp [ReleasePortMaps]⟩
  | false =>
    have hsetup2 : setupLoop eng containerip [m] w = some (none, ms1, w1) := by
      simpa [SetupPortMaps] using hsetup
    obtain ⟨hok, hms, -, -, hfull⟩ := setupLoop_single_success eng containerip m w w1 ms1 hsetup2
    obtain ⟨hchains, i, halloc⟩ := hfull hnew
    obtain ⟨hints, hlo, hhi⟩ := hfit
    obtain ⟨hg, hfle, htle, hlegal⟩ := generateIptablesArgs_ok containerip m hints hok
    have hgn : (generateIptablesArgs containerip m).2 = m.normalized := hg
    rw [hgn] at halloc hms
    simp only [PortMapping.normalized] at halloc
    have hints2 := hints
    simp only [PortMapping.isInts, isInt] at hints2
    have hte : m.ToPorts.endOrBegin ≤ maxInt := by
      simp only [PortRange.endOrBegin]
      split_ifs <;> omega
    have hfree := allocLoop_success_free _ _ _ _ _ _ _ _ (le_of_lt hhi) halloc
    rw [allocLoop_free m.Protocol containerip m.FromPorts.endOrBegin hhi _
      m.FromPorts.Begin m.ToPorts.Begin w.portMapper rfl hfree (by intro hlt; omega)] at halloc
    simp only [Option.some.injEq, Prod.mk.injEq, true_and] at halloc
    have hpm : w1.portMapper = w.portMapper.withRange m.Protocol containerip m.FromPorts.Begin
        m.FromPorts.endOrBegin m.ToPorts.Begin := halloc.2.symm
    -- the mapping as teardown reads it is the mapping setup left
    have hrp : m.normalized.releaseProtocol = m.Protocol := by
      rcases hproto with h | h <;>
        simp only [PortMapping.releaseProtocol, PortMapping.normalized, h] <;> decide
    have hre : m.normalized.released = m.normalized := by
      simp only [PortMapping.released, hrp]
      simp only [PortMapping.normalized, PortRange.endOrBegin]
      congr 2
      split_ifs <;> omega
    have hgen : generateIptablesArgs containerip m.normalized =
        generateIptablesArgs containerip m := by
      rw [← hgn]
      exact generateIptablesArgs_idem containerip m
    have hend : m.normalized.FromPorts.endOrBegin = m.FromPorts.endOrBegin := by
      simp only [PortMapping.normalized, PortRange.endOrBegin]
      split_ifs <;> omega
    refine ⟨[m.normalized], ?_⟩
    subst hms
    simp only [ReleasePortMaps, List.length_cons, List.length_nil]
    rw [releaseMapsLoop_cons eng2 containerip m.normalized [] w1 (by rw [hend]; exact hhi)]
    simp only [hrp, hend, releaseMapsLoop, chainsAfterRelease, hre, hgen, hok, hgn, OperatePortMap,
      hdel, Raw, hraw, hchains, Chains.withRules, List.erase_cons_head, hpm]
    have htable : (w.portMapper.withRange m.Protocol containerip m.FromPorts.Begin
        m.FromPorts.endOrBegin m.ToPorts.Begin).withoutRange m.Protocol
        m.normalized.FromPorts.Begin m.FromPorts.endOrBegin = w.portMapper := by
      apply withoutRange_restores
      · exact hfree
      · intro pr h hout
        simp only [PortMapper.withRange]
        rw [if_neg]
        exact hout
    rw [htable]
    rfl


/-- Witness for C5: UDP host ports 5000-5002 to container ports 6000-6002, set
up on an empty table and empty chains and then released. -/
theorem SetupPortMaps_ReleasePortMaps_round_trip_witness :
    ∃ ms2, ReleasePortMaps false quietEngine "10.0.0.2"
        [(PortMapping.mk "udp" ⟨6000, 6002⟩ ⟨5000, 5002⟩).normalized]
        ⟨PortMapper.New.withRange "udp" "10.0.0.2" 5000 5002 6000,
          (Chains.mk [] []).withRules
            (generateIptablesArgs "10.0.0.2" ⟨"udp", ⟨6000, 6002⟩, ⟨5000, 5002⟩⟩).1.1
            (generateIptablesArgs "10.0.0.2" ⟨"udp", ⟨6000, 6002⟩, ⟨5000, 5002⟩⟩).1.2.1⟩ =
      some (none, ms2, ⟨PortMapper.New, ⟨[], []⟩⟩) :=
  SetupPortMaps_ReleasePortMaps_round_trip false quietEngine quietEngine "10.0.0.2"
    ⟨"udp", ⟨6000, 6002⟩, ⟨5000, 5002⟩⟩ ⟨PortMapper.New, ⟨[], []⟩⟩ _ _
    (by decide) (by decide) (by decide)
    (SetupPortMaps_single_fresh quietEngine "10.0.0.2" ⟨"udp", ⟨6000, 6002⟩, ⟨5000, 5002⟩⟩
      ⟨PortMapper.New, ⟨[], []⟩⟩ (by decide) (by decide) (by decide) (by decide) (by decide)
      (fun _ _ _ => rfl))
    (fun _ _ => rfl) (fun _ _ => rfl)

/-- C9: for a single legal mapping whose redirect rule is new, whose host range
the engine reports unused, whose rules install and whose host ports are free,
`SetupPortMaps` returns success and the allocation table afterwards is the table
before with exactly the entries `(Protocol, FromPorts.Begin + k) ->
(containerIP, ToPorts.Begin + k)` added for the host ports of the range; every
other key is as before. -/
theorem SetupPortMaps_allocates_range (eng : RuleEngine) (containerip : String)
    (m : PortMapping) (w : World) (hfit : m.countersFit)
    (hok : (generateIptablesArgs containerip m).1.2.2 = none)
    (hnew : PortMapExists "HYPER" (generateIptablesArgs containerip m).1.1 w.chains = false)
    (hunused : PortMapUsed eng "HYPER" m.Protocol m.FromPorts.Begin m.FromPorts.endOrBegin
      w.chains = false)
    (hinst : installsRules eng (generateIptablesArgs containerip m).1.1
      (generateIptablesArgs containerip m).1.2.1 w.chains)
    (hfree : ∀ h, m.FromPorts.Begin ≤ h → h ≤ m.FromPorts.endOrBegin →
      w.portMapper.table m.Protocol h = none) :
    ∃ ms w1, SetupPortMaps false eng containerip [m] w = some (none, ms, w1) ∧
      (∀ k : Int, 0 ≤ k → k ≤ m.FromPorts.endOrBegin - m.FromPorts.Begin →
        w1.portMapper.table m.Protocol (m.FromPorts.Begin + k) =
          some (containerip, m.ToPorts.Begin + k)) ∧
      (∀ pr h, ¬ (pr = m.Protocol ∧ m.FromPorts.Begin ≤ h ∧ h ≤ m.FromPorts.endOrBegin) →
        w1.portMapper.table pr h = w.portMapper.table pr h) := by
  refine ⟨_, _, SetupPortMaps_single_fresh eng containerip m w hfit hok hnew hunused hinst hfree,
    ?_, ?_⟩
  · intro k hk1 hk2
    have hin : m.FromPorts.Begin ≤ m.FromPorts.Begin + k ∧
        m.FromPorts.Begin + k ≤ m.FromPorts.endOrBegin := by omega
    simp only [PortMapper.withRange, hin, true_and, and_self, if_true]
    congr 2
    omega
  · intro pr h hout
    simp only [PortMapper.withRange, if_neg hout]

/-- Witness for C9: UDP host ports 5000-5002 to container ports 6000-6002 on an
empty table and empty chains. -/
theorem SetupPortMaps_allocates_range_witness :
    ∃ ms w1, SetupPortMaps false quietEngine "10.0.0.2" [⟨"udp", ⟨6000, 6002⟩, ⟨5000, 5002⟩⟩]
        ⟨PortMapper.New, ⟨[], []⟩⟩ = some (none, ms, w1) ∧
      (∀ k : Int, 0 ≤ k → k ≤ 5002 - 5000 →
        w1.portMapper.table "udp" (5000 + k) = some ("10.0.0.2", 6000 + k)) ∧
      (∀ pr h, ¬ (pr = "udp" ∧ (5000 : Int) ≤ h ∧ h ≤ 5002) →
        w1.portMapper.table pr h = PortMapper.New.table pr h) :=
  SetupPortMaps_allocates_range quietEngine "10.0.0.2" ⟨"udp", ⟨6000, 6002⟩, ⟨5000, 5002⟩⟩
    ⟨PortMapper.New, ⟨[], []⟩⟩ (by decide) (by decide) (by decide) (by decide) (by decide)
    (fun _ _ _ => rfl)

/-- C10: `ReleasePortMaps` returns nil for every container address, every list
of mappings and every state of the table and of the chains, whatever the rule
engine answers; when the switch is off, every host port of every mapping of the
list (an `End` of 0 read as `Begin`) is absent from the table afterwards, also
when it was never allocated or when a mapping fails argument validation, and
the keys outside those ranges are as before. -/
theorem ReleasePortMaps_best_effort (disableIptables : Bool) (eng : RuleEngine)
    (containerip : String) (maps : List PortMapping) (w : World)
    (hfit : ∀ m ∈ maps, m.FromPorts.endOrBegin < maxInt) :
    ∃ maps1 w1, ReleasePortMaps disableIptables eng containerip maps w = some (none, maps1, w1) ∧
      (disableIptables = false →
        (∀ m ∈ maps, ∀ h, m.FromPorts.Begin ≤ h → h ≤ m.FromPorts.endOrBegin →
          w1.portMapper.table m.releaseProtocol h = none) ∧
        (∀ pr h, (∀ m ∈ maps, ¬ (pr = m.releaseProtocol ∧ m.FromPorts.Begin ≤ h ∧
            h ≤ m.FromPorts.endOrBegin)) →
          w1.portMapper.table pr h = w.portMapper.table pr h)) := by
  obtain ⟨maps1, w1, h1, h2⟩ := releaseMapsLoop_table eng containerip maps w hfit
  cases disableIptables with
  | true => exact ⟨maps, w, by simp [ReleasePortMaps], fun h => by simp at h⟩
  | false =>
    refine ⟨maps1, w1, ?_, fun _ => ⟨?_, ?_⟩⟩
    · cases maps with
      | nil =>
        rw [releaseMapsLoop] at h1
        simp only [Option.some.injEq, Prod.mk.injEq] at h1
        obtain ⟨rfl, rfl⟩ := h1
        simp [ReleasePortMaps]
      | cons m rest => simp [ReleasePortMaps, h1]
    · intro m hm h hb he
      rw [h2, if_pos ⟨m, hm, rfl, hb, he⟩]
    · intro pr h hout
      rw [h2, if_neg]
      rintro ⟨m, hm, hc⟩
      exact hout m hm hc

/-- Witness for C10: two mappings, the second with an inverted host range, on a
table that holds none of their ports. -/
theorem ReleasePortMaps_best_effort_witness :
    ∃ maps1 w1, ReleasePortMaps false quietEngine "10.0.0.2"
        [⟨"tcp", ⟨80, 0⟩, ⟨8080, 0⟩⟩, ⟨"udp", ⟨53, 0⟩, ⟨5300, 5200⟩⟩]
        ⟨tableWith8002, ⟨[], []⟩⟩ = some (none, maps1, w1) ∧
      (false = false →
        (∀ m ∈ [(⟨"tcp", ⟨80, 0⟩, ⟨8080, 0⟩⟩ : PortMapping), ⟨"udp", ⟨53, 0⟩, ⟨5300, 5200⟩⟩],
          ∀ h, m.FromPorts.Begin ≤ h → h ≤ m.FromPorts.endOrBegin →
          w1.portMapper.table m.releaseProtocol h = none) ∧
        (∀ pr h, (∀ m ∈ [(⟨"tcp", ⟨80, 0⟩, ⟨8080, 0⟩⟩ : PortMapping),
            ⟨"udp", ⟨53, 0⟩, ⟨5300, 5200⟩⟩], ¬ (pr = m.releaseProtocol ∧ m.FromPorts.Begin ≤ h ∧
            h ≤ m.FromPorts.endOrBegin)) →
          w1.portMapper.table pr h = tableWith8002.table pr h)) :=
  ReleasePortMaps_best_effort false quietEngine "10.0.0.2"
    [⟨"tcp", ⟨80, 0⟩, ⟨8080, 0⟩⟩, ⟨"udp", ⟨53, 0⟩, ⟨5300, 5200⟩⟩]
    ⟨tableWith8002, ⟨[], []⟩⟩ (by decide)

/-! ## Properties of the parsers and of repeated rule generation -/

/-- C11: `NewPortRange` inverts decimal rendering: for port numbers `b` and `e`
(0 to 65535) the rendering of `b` gives the range from `b` to `b`, and the
renderings of `b` and `e` joined by a minus sign give the range from `b` to
`e`, in whatever order `b` and `e` are; no error is returned. -/
theorem NewPortRange_inverts_Itoa (b e : Nat) (hb : b ≤ 65535) (he : e ≤ 65535) :
    NewPortRange (Itoa (b : Int)) = (some ⟨(b : Int), (b : Int)⟩, none) ∧
    NewPortRange (Itoa (b : Int) ++ "-" ++ Itoa (e : Int)) =
      (some ⟨(b : Int), (e : Int)⟩, none) :=
  NewPortRange_Itoa b e hb he

/-- Witness for C11: the port 80 and the inverted range 8010-8000. -/
theorem NewPortRange_inverts_Itoa_witness :
    NewPortRange "8010" = (some ⟨8010, 8010⟩, none) ∧
    NewPortRange "8010-8000" = (some ⟨8010, 8000⟩, none) :=
  NewPortRange_inverts_Itoa 8010 8000 (by decide) (by decide)

/-- C12: `NewPortRange` fails exactly when the text before the first minus sign
is not a non-empty text of decimal digits with a value of at most 65535, or the
text holds a minus sign and the text after the first one is not such a text;
the seven listed texts fail, an error comes with a nil range, and a range
that is returned has both ends between 0 and 65535. -/
theorem NewPortRange_fails_iff (r : String) :
    ((NewPortRange r).2 ≠ none ↔
      ¬ isPortText (textBefore r '-') ∨ ('-' ∈ r.data ∧ ¬ isPortText (textAfter r '-'))) ∧
    ((NewPortRange r).2 ≠ none → (NewPortRange r).1 = none) ∧
    (∀ p, (NewPortRange r).1 = some p →
      0 ≤ p.Begin ∧ p.Begin ≤ 65535 ∧ 0 ≤ p.End ∧ p.End ≤ 65535) ∧
    (∀ t ∈ ["", "abc", "65536", "-5", "80-", "1-2-3", "+80"], (NewPortRange t).2 ≠ none) := by
  obtain ⟨h1, h2, h3⟩ := NewPortRange_spec r
  refine ⟨?_, h3, ?_, by decide⟩
  · rw [ne_eq, h1]
    constructor
    · intro h
      by_cases hb : isPortText (textBefore r '-')
      · right
        by_contra hc
        apply h
        refine ⟨hb, fun hin => ?_⟩
        by_contra ha
        exact hc ⟨hin, ha⟩
      · exact Or.inl hb
    · rintro (h | ⟨hin, ha⟩) ⟨hb, hab⟩
      · exact h hb
      · exact ha (hab hin)
  · intro p hp
    have hnone : (NewPortRange r).2 = none := by
      by_contra hne
      rw [h3 hne] at hp
      exact absurd hp (by simp)
    obtain ⟨hb, ha⟩ := h1.mp hnone
    rw [h2 hnone] at hp
    simp only [Option.some.injEq] at hp
    subst hp
    have hbv := hb.2.2
    by_cases hin : '-' ∈ r.data
    · have hav := (ha hin).2.2
      simp only [hin, if_true]
      omega
    · simp only [hin, if_false]
      omega

/-- C13: `NewPortMapping` fails exactly when the protocol is none of the empty
text, `tcp` and `udp` (so `TCP` and `UDP` are refused) or `NewPortRange` fails
on one of the two range texts; when it succeeds the mapping has the protocol
given (`tcp` for the empty text) and the two ranges `NewPortRange` returns. -/
theorem NewPortMapping_spec (proto from_ to_ : String) :
    ((NewPortMapping proto from_ to_).2 ≠ none ↔
      (proto ≠ "" ∧ proto ≠ "tcp" ∧ proto ≠ "udp") ∨ (NewPortRange from_).2 ≠ none ∨
        (NewPortRange to_).2 ≠ none) ∧
    ((NewPortMapping proto from_ to_).2 ≠ none → (NewPortMapping proto from_ to_).1 = none) ∧
    ((NewPortMapping proto from_ to_).2 = none →
      ∃ f t, (NewPortRange from_).1 = some f ∧ (NewPortRange to_).1 = some t ∧
        (NewPortMapping proto from_ to_).1 =
          some ⟨if proto = "" then "tcp" else proto, t, f⟩) ∧
    (NewPortMapping "TCP" from_ to_).2 ≠ none ∧ (NewPortMapping "UDP" from_ to_).2 ≠ none := by
  have key : ∀ proto : String,
      ((NewPortMapping proto from_ to_).2 ≠ none ↔
        (proto ≠ "" ∧ proto ≠ "tcp" ∧ proto ≠ "udp") ∨ (NewPortRange from_).2 ≠ none ∨
          (NewPortRange to_).2 ≠ none) ∧
      ((NewPortMapping proto from_ to_).2 ≠ none → (NewPortMapping proto from_ to_).1 = none) ∧
      ((NewPortMapping proto from_ to_).2 = none →
        ∃ f t, (NewPortRange from_).1 = some f ∧ (NewPortRange to_).1 = some t ∧
          (NewPortMapping proto from_ to_).1 =
            some ⟨if proto = "" then "tcp" else proto, t, f⟩) := by
    intro proto
    obtain ⟨-, hf2, hf3⟩ := NewPortRange_spec from_
    obtain ⟨-, ht2, ht3⟩ := NewPortRange_spec to_
    unfold NewPortMapping
    by_cases hp : (if proto = "" then "tcp" else proto) ≠ "tcp" ∧
        (if proto = "" then "tcp" else proto) ≠ "udp"
    · have hp2 : proto ≠ "" ∧ proto ≠ "tcp" ∧ proto ≠ "udp" := by
        by_cases h0 : proto = ""
        · simp [h0] at hp
        · simp only [h0, if_false] at hp
          exact ⟨h0, hp⟩
      simp [hp, hp2]
    · have hp2 : ¬ (proto ≠ "" ∧ proto ≠ "tcp" ∧ proto ≠ "udp") := by
        rintro ⟨h0, h1⟩
        simp only [h0, if_false] at hp
        exact hp h1
      simp only [hp, if_false, hp2, false_or]
      cases hf : NewPortRange from_ with
      | mk f ef =>
        rw [hf] at hf2 hf3
        cases ef with
        | some e => simp
        | none =>
          have hfs := hf2 rfl
          simp only at hfs
          subst hfs
          cases ht : NewPortRange to_ with
          | mk t et =>
            rw [ht] at ht2 ht3
            cases et with
            | some e => simp
            | none =>
              have hts := ht2 rfl
              simp only at hts
              subst hts
              simp
  obtain ⟨k1, k2, k3⟩ := key proto
  refine ⟨k1, k2, k3, ?_, ?_⟩
  · exact (key "TCP").1.mpr (Or.inl (by decide))
  · exact (key "UDP").1.mpr (Or.inl (by decide))

/-- C14, counterexample: the inverted range text `8010-0` parses to the range
with `Begin` 8010 and `End` 0, and `generateIptablesArgs` reads the `End` of 0
as no end given: it returns no error and treats the mapping as the single host
port 8010. -/
theorem NewPortMapping_inverted_to_zero_accepted :
    Itoa (8010 : Int) ++ "-" ++ Itoa (0 : Int) = "8010-0" ∧
    NewPortMapping "tcp" "8010-0" "80" = (some ⟨"tcp", ⟨80, 80⟩, ⟨8010, 0⟩⟩, none) ∧
    (generateIptablesArgs "10.0.0.2" ⟨"tcp", ⟨80, 80⟩, ⟨8010, 0⟩⟩).1 =
      (["-p", "tcp", "-m", "tcp", "--dport", "8010", "-j", "DNAT",
          "--to-destination", "10.0.0.2:80"],
        ["-d", "10.0.0.2", "-p", "tcp", "-m", "tcp", "--dport", "10.0.0.2:80",
          "-j", "ACCEPT"], none) := by
  refine ⟨by decide, by decide, by rfl⟩

/-- C14, as the code has it: for ports `b > e` with `e` at least 1, the text of
the inverted range parses, for every accepted protocol and every range text
for the container side that parses, into a mapping whose host range has
`Begin` `b` and `End` `e`, and `generateIptablesArgs` refuses this mapping
with the error `invalid from port range b-e`. -/
theorem NewPortMapping_inverted_rejected (b e : Nat) (proto to_ : String) (containerip : String)
    (hbe : e < b) (hb : b ≤ 65535) (he : 1 ≤ e)
    (hproto : proto = "" ∨ proto = "tcp" ∨ proto = "udp")
    (hto : (NewPortRange to_).2 = none) :
    ∃ m, NewPortMapping proto (Itoa (b : Int) ++ "-" ++ Itoa (e : Int)) to_ = (some m, none) ∧
      m.FromPorts = ⟨(b : Int), (e : Int)⟩ ∧
      (generateIptablesArgs containerip m).1 =
        ([], [], some (.errorf ("invalid from port range " ++ Itoa (b : Int) ++ "-" ++
          Itoa (e : Int)))) := by
  have hfrom := (NewPortRange_Itoa b e hb (by omega)).2
  obtain ⟨-, ht2, -⟩ := NewPortRange_spec to_
  have hts := ht2 hto
  cases ht : NewPortRange to_ with
  | mk t et =>
    rw [ht] at hts hto
    simp only at hts hto
    obtain ⟨tv, htv⟩ : ∃ tv, t = some tv := ⟨_, hts⟩
    subst htv hto
    have hp : ¬ ((if proto = "" then "tcp" else proto) ≠ "tcp" ∧
        (if proto = "" then "tcp" else proto) ≠ "udp") := by
      rcases hproto with rfl | rfl | rfl <;> decide
    refine ⟨⟨if proto = "" then "tcp" else proto, tv, ⟨(b : Int), (e : Int)⟩⟩, ?_, rfl, ?_⟩
    · simp only [NewPortMapping, hp, if_false, hfrom, ht]
    · have h1 : ¬ ((e : Int) = 0 ∨ (e : Int) = (b : Int)) := by omega
      have h2 : ¬ ((e : Int) > (b : Int)) := by omega
      have h3 : ¬ (e = 0 ∨ e = b) := by omega
      have h4 : ¬ (b < e) := by omega
      simp [generateIptablesArgs, h1, h2, h3, h4]

/-- Witness for C14: the inverted range 8010-8000 over UDP. -/
theorem NewPortMapping_inverted_rejected_witness :
    ∃ m, NewPortMapping "udp" "8010-8000" "80-90" = (some m, none) ∧
      m.FromPorts = ⟨8010, 8000⟩ ∧
      (generateIptablesArgs "10.0.0.2" m).1 =
        ([], [], some (.errorf "invalid from port range 8010-8000")) :=
  NewPortMapping_inverted_rejected 8010 8000 "udp" "80-90" "10.0.0.2" (by decide) (by decide)
    (by decide) (by decide) (by decide)

/-- C15: `generateIptablesArgs` called a second time, on the mapping as the
first call left it, returns the same redirect arguments, the same
forwarding-permit arguments and the same error as the first call, and leaves
the mapping as it found it. -/
theorem generateIptablesArgs_second_call (containerip : String) (m : PortMapping) :
    (generateIptablesArgs containerip (generateIptablesArgs containerip m).2).1.1 =
      (generateIptablesArgs containerip m).1.1 ∧
    (generateIptablesArgs containerip (generateIptablesArgs containerip m).2).1.2.1 =
      (generateIptablesArgs containerip m).1.2.1 ∧
    (generateIptablesArgs containerip (generateIptablesArgs containerip m).2).1.2.2 =
      (generateIptablesArgs containerip m).1.2.2 ∧
    (generateIptablesArgs containerip (generateIptablesArgs containerip m).2).2 =
      (generateIptablesArgs containerip m).2 := by
  rw [generateIptablesArgs_idem]
  exact ⟨rfl, rfl, rfl, rfl⟩

/-- C16, counterexample: on the mapping of host port 8080 to container port 80
with both `End` fields left at 0, `generateIptablesArgs` leaves
`FromPorts.End` at 8080 and `ToPorts.End` at 80. -/
theorem generateIptablesArgs_overwrites_End :
    (generateIptablesArgs "10.0.0.2" ⟨"tcp", ⟨80, 0⟩, ⟨8080, 0⟩⟩).2 =
      ⟨"tcp", ⟨80, 80⟩, ⟨8080, 8080⟩⟩ ∧
    (generateIptablesArgs "10.0.0.2" ⟨"tcp", ⟨80, 0⟩, ⟨8080, 0⟩⟩).2.FromPorts.End ≠
      (PortMapping.mk "tcp" ⟨80, 0⟩ ⟨8080, 0⟩).FromPorts.End := by
  constructor
  · rfl
  · decide

/-- C16, as the code has it: `generateIptablesArgs` leaves the protocol and
both `Begin` fields as they were; it leaves `FromPorts.End` as it was unless it
was 0, in which case it holds `FromPorts.Begin` afterwards; and it leaves
`ToPorts.End` as it was unless it was 0 and the host range was accepted, in
which case it holds `ToPorts.Begin` afterwards. A mapping whose two `End`
fields are not 0 is left as it was. -/
theorem generateIptablesArgs_mutation (containerip : String) (m : PortMapping) :
    (generateIptablesArgs containerip m).2.Protocol = m.Protocol ∧
    (generateIptablesArgs containerip m).2.FromPorts.Begin = m.FromPorts.Begin ∧
    (generateIptablesArgs containerip m).2.ToPorts.Begin = m.ToPorts.Begin ∧
    (generateIptablesArgs containerip m).2.FromPorts.End = m.FromPorts.endOrBegin ∧
    (generateIptablesArgs containerip m).2.ToPorts.End =
      (if m.FromPorts.End ≠ 0 ∧ m.FromPorts.End < m.FromPorts.Begin then m.ToPorts.End
       else m.ToPorts.endOrBegin) ∧
    (m.FromPorts.End ≠ 0 → m.ToPorts.End ≠ 0 → (generateIptablesArgs containerip m).2 = m) := by
  obtain ⟨proto, ⟨tb, te⟩, ⟨fb, fe⟩⟩ := m
  simp only [PortRange.endOrBegin]
  have hw0 : wrapInt 0 = 0 := by decide
  by_cases h1 : fe = 0 ∨ fe = fb
  · have hfe : (if fe = 0 then fb else fe) = fb := by split_ifs <;> omega
    have hc : ¬ (fe ≠ 0 ∧ fe < fb) := by omega
    rw [hfe, if_neg hc]
    by_cases h2 : te = 0 ∨ te = tb
    · have hte : (if te = 0 then tb else te) = tb := by split_ifs <;> omega
      rw [hte]
      simp [generateIptablesArgs, h1, h2, hw0]
      omega
    · by_cases h3 : te > tb
      · have hte : (if te = 0 then tb else te) = te := by split_ifs <;> omega
        rw [hte]
        simp [generateIptablesArgs, h1, h2, h3, hw0]
        omega
      · have hte : (if te = 0 then tb else te) = te := by split_ifs <;> omega
        rw [hte]
        simp [generateIptablesArgs, h1, h2, h3]
        omega
  · by_cases h0 : fe > fb
    · have hfe : (if fe = 0 then fb else fe) = fe := by split_ifs <;> omega
      have hc : ¬ (fe ≠ 0 ∧ fe < fb) := by omega
      rw [hfe, if_neg hc]
      by_cases h2 : te = 0 ∨ te = tb
      · have hte : (if te = 0 then tb else te) = tb := by split_ifs <;> omega
        rw [hte]
        by_cases h4 : wrapInt (fe - fb) ≠ 0 ∧ wrapInt (fe - fb) ≠ wrapInt 0
        · simp [generateIptablesArgs, h1, h2, h0, h4]
          omega
        · simp [generateIptablesArgs, h1, h2, h0, h4]
          omega
      · by_cases h3 : te > tb
        · have hte : (if te = 0 then tb else te) = te := by split_ifs <;> omega
          rw [hte]
          by_cases h4 : wrapInt (fe - fb) ≠ 0 ∧ wrapInt (fe - fb) ≠ wrapInt (te - tb)
          · simp [generateIptablesArgs, h1, h2, h3, h0, h4]
          · simp [generateIptablesArgs, h1, h2, h3, h0, h4]
        · have hte : (if te = 0 then tb else te) = te := by split_ifs <;> omega
          rw [hte]
          simp [generateIptablesArgs, h1, h2, h3, h0]
    · have hfe : (if fe = 0 then fb else fe) = fe := by split_ifs <;> omega
      have hc : fe ≠ 0 ∧ fe < fb := by omega
      rw [hfe, if_pos hc]
      simp [generateIptablesArgs, h1, h0]

/-! ## Properties of batches of mappings -/

/-- C17: when the mappings before position `i` have been processed with
success and the redirect rule of the mapping at position `i` is in the chain,
`SetupPortMaps` returns success there: the state is the one the earlier
mappings left (no rule installed, no port allocated for the mapping at `i` or
for a later one) and the later mappings are not touched, whatever they are. -/
theorem SetupPortMaps_returns_at_installed_rule (eng : RuleEngine) (containerip : String)
    (pre : List PortMapping) (m : PortMapping) (post pre1 : List PortMapping) (w w1 : World)
    (hpre : SetupPortMaps false eng containerip pre w = some (none, pre1, w1))
    (hok : (generateIptablesArgs containerip m).1.2.2 = none)
    (hex : PortMapExists "HYPER" (generateIptablesArgs containerip m).1.1 w1.chains = true) :
    ∃ m1, (m1 = m ∨ m1 = (generateIptablesArgs containerip m).2) ∧
      SetupPortMaps false eng containerip (pre ++ m :: post) w =
        some (none, pre1 ++ m1 :: post, w1) := by
  have hpre2 : setupLoop eng containerip pre w = some (none, pre1, w1) := by
    cases pre with
    | nil =>
      simp only [SetupPortMaps, List.length_nil, beq_self_eq_true, Bool.or_true, if_true] at hpre
      rw [setupLoop]
      exact hpre
    | cons a pre => simpa [SetupPortMaps] using hpre
  obtain ⟨m1, hm0, hm1⟩ :=
    setupLoop_stops_at_installed eng containerip m post pre pre1 w w1 hpre2 hok hex
  refine ⟨m1, hm0, ?_⟩
  have hlen : ((pre ++ m :: post).length == 0) = false := by simp
  simp only [SetupPortMaps, hlen, Bool.or_self, Bool.false_eq_true, if_false]
  exact hm1

/-- Witness for C17: the rule of the mapping 8080 -> 80 is in the chain; the
list holds the new mapping 9090 -> 90 before it and, after it, a mapping with
an inverted host range. The first mapping is set up, and the call returns
success at the second one without looking at the third. -/
theorem SetupPortMaps_returns_at_installed_rule_witness :
    ∃ m1, (m1 = ⟨"tcp", ⟨80, 0⟩, ⟨8080, 0⟩⟩ ∨
        m1 = (generateIptablesArgs "10.0.0.2" ⟨"tcp", ⟨80, 0⟩, ⟨8080, 0⟩⟩).2) ∧
      SetupPortMaps false quietEngine "10.0.0.2"
        ([⟨"tcp", ⟨90, 0⟩, ⟨9090, 0⟩⟩] ++ ⟨"tcp", ⟨80, 0⟩, ⟨8080, 0⟩⟩ ::
          [⟨"tcp", ⟨70, 0⟩, ⟨7010, 7000⟩⟩])
        ⟨PortMapper.New, ⟨[(generateIptablesArgs "10.0.0.2" ⟨"tcp", ⟨80, 0⟩, ⟨8080, 0⟩⟩).1.1], []⟩⟩ =
        some (none, [(PortMapping.mk "tcp" ⟨90, 0⟩ ⟨9090, 0⟩).normalized] ++ m1 ::
            [⟨"tcp", ⟨70, 0⟩, ⟨7010, 7000⟩⟩],
          ⟨PortMapper.New.withRange "tcp" "10.0.0.2" 9090 9090 90,
            (Chains.mk [(generateIptablesArgs "10.0.0.2" ⟨"tcp", ⟨80, 0⟩, ⟨8080, 0⟩⟩).1.1]
              []).withRules
              (generateIptablesArgs "10.0.0.2" ⟨"tcp", ⟨90, 0⟩, ⟨9090, 0⟩⟩).1.1
              (generateIptablesArgs "10.0.0.2" ⟨"tcp", ⟨90, 0⟩, ⟨9090, 0⟩⟩).1.2.1⟩) :=
  SetupPortMaps_returns_at_installed_rule quietEngine "10.0.0.2"
    [⟨"tcp", ⟨90, 0⟩, ⟨9090, 0⟩⟩] ⟨"tcp", ⟨80, 0⟩, ⟨8080, 0⟩⟩
    [⟨"tcp", ⟨70, 0⟩, ⟨7010, 7000⟩⟩] _
    ⟨PortMapper.New, ⟨[(generateIptablesArgs "10.0.0.2" ⟨"tcp", ⟨80, 0⟩, ⟨8080, 0⟩⟩).1.1], []⟩⟩ _
    (SetupPortMaps_single_fresh quietEngine "10.0.0.2" ⟨"tcp", ⟨90, 0⟩, ⟨9090, 0⟩⟩
      ⟨PortMapper.New, ⟨[(generateIptablesArgs "10.0.0.2" ⟨"tcp", ⟨80, 0⟩, ⟨8080, 0⟩⟩).1.1], []⟩⟩
      (by decide) (by decide) (by decide) (by decide) (by decide) (fun _ _ _ => rfl))
    (by decide) (by decide)

/-- C18: `SetupPortMaps` is not atomic across mappings. When the first mapping
of a list of two is applied in full and the second one fails (its setup from
the state the first one left returns an error), the call returns the error of
the second mapping; the host ports of the first mapping are allocated and its
two rules are in the chains afterwards, and the allocation table is the one
the first mapping left: the rollback released ports of the failing mapping
only. -/
theorem SetupPortMaps_not_atomic (eng : RuleEngine) (containerip : String)
    (m1 m2 : PortMapping) (w w2 : World) (err : Error) (ms2 : List PortMapping)
    (hfit1 : m1.countersFit) (hfit2 : m2.countersFit)
    (hok : (generateIptablesArgs containerip m1).1.2.2 = none)
    (hnew : PortMapExists "HYPER" (generateIptablesArgs containerip m1).1.1 w.chains = false)
    (hunused : PortMapUsed eng "HYPER" m1.Protocol m1.FromPorts.Begin m1.FromPorts.endOrBegin
      w.chains = false)
    (hinst : installsRules eng (generateIptablesArgs containerip m1).1.1
      (generateIptablesArgs containerip m1).1.2.1 w.chains)
    (hfree : ∀ h, m1.FromPorts.Begin ≤ h → h ≤ m1.FromPorts.endOrBegin →
      w.portMapper.table m1.Protocol h = none)
    (hsecond : SetupPortMaps false eng containerip [m2]
      ⟨w.portMapper.withRange m1.Protocol containerip m1.FromPorts.Begin
          m1.FromPorts.endOrBegin m1.ToPorts.Begin,
        w.chains.withRules (generateIptablesArgs containerip m1).1.1
          (generateIptablesArgs containerip m1).1.2.1⟩ = some (some err, ms2, w2)) :
    SetupPortMaps false eng containerip [m1, m2] w =
      some (some err, m1.normalized :: ms2, w2) ∧
    (∀ k : Int, 0 ≤ k → k ≤ m1.FromPorts.endOrBegin - m1.FromPorts.Begin →
      w2.portMapper.table m1.Protocol (m1.FromPorts.Begin + k) =
        some (containerip, m1.ToPorts.Begin + k)) ∧
    (generateIptablesArgs containerip m1).1.1 ∈ w2.chains.nat ∧
    (generateIptablesArgs containerip m1).1.2.1 ∈ w2.chains.filter ∧
    w2.portMapper = w.portMapper.withRange m1.Protocol containerip m1.FromPorts.Begin
      m1.FromPorts.endOrBegin m1.ToPorts.Begin := by
  have hsecond2 : setupLoop eng containerip [m2]
      ⟨w.portMapper.withRange m1.Protocol containerip m1.FromPorts.Begin
          m1.FromPorts.endOrBegin m1.ToPorts.Begin,
        w.chains.withRules (generateIptablesArgs containerip m1).1.1
          (generateIptablesArgs containerip m1).1.2.1⟩ = some (some err, ms2, w2) := by
    simpa [SetupPortMaps] using hsecond
  obtain ⟨hpm, hnat, hfil⟩ :=
    setupLoop_single_failure eng containerip m2 _ w2 err ms2 hfit2 hsecond2
  obtain ⟨hints, hlo, hhi⟩ := hfit1
  obtain ⟨hg, hfle, htle, hlegal⟩ := generateIptablesArgs_ok containerip m1 hints hok
  have hints2 := hints
  simp only [PortMapping.isInts, isInt] at hints2
  have hte : m1.ToPorts.endOrBegin ≤ maxInt := by
    simp only [PortRange.endOrBegin]
    split_ifs <;> omega
  have halloc := allocLoop_free m1.Protocol containerip m1.FromPorts.endOrBegin hhi _
    m1.FromPorts.Begin m1.ToPorts.Begin w.portMapper rfl hfree (by intro hlt; omega)
  refine ⟨?_, ?_, ?_, ?_, hpm⟩
  · have h := setupLoop_cons_allocated eng containerip m1 [m2] w hok hnew
      (by rw [hg]; exact hunused) hinst _ _ (by rw [hg]; exact halloc) (some err) ms2 w2
      (by simpa [Chains.withRules] using hsecond2)
    simp only [SetupPortMaps, PortMapping.normalized]
    rw [← hg]
    exact h
  · intro k hk1 hk2
    rw [hpm]
    have hin : m1.FromPorts.Begin ≤ m1.FromPorts.Begin + k ∧
        m1.FromPorts.Begin + k ≤ m1.FromPorts.endOrBegin := by omega
    simp only [PortMapper.withRange, hin, true_and, and_self, if_true]
    congr 2
    omega
  · exact hnat _ (by simp [Chains.withRules])
  · exact hfil _ (by simp [Chains.withRules])

/-- Witness for C18: the mapping 8080 -> 80 followed by a mapping with an
inverted host range, on an empty table and empty chains. -/
theorem SetupPortMaps_not_atomic_witness :
    SetupPortMaps false quietEngine "10.0.0.2"
        [⟨"tcp", ⟨80, 0⟩, ⟨8080, 0⟩⟩, ⟨"tcp", ⟨70, 0⟩, ⟨7010, 7000⟩⟩]
        ⟨PortMapper.New, ⟨[], []⟩⟩ =
      some (some (.errorf "invalid from port range 7010-7000"),
        [⟨"tcp", ⟨80, 80⟩, ⟨8080, 8080⟩⟩, ⟨"tcp", ⟨70, 0⟩, ⟨7010, 7000⟩⟩],
        ⟨PortMapper.New.withRange "tcp" "10.0.0.2" 8080 8080 80,
          ⟨[["-p", "tcp", "-m", "tcp", "--dport", "8080", "-j", "DNAT",
              "--to-destination", "10.0.0.2:80"]],
           [["-d", "10.0.0.2", "-p", "tcp", "-m", "tcp", "--dport", "10.0.0.2:80",
              "-j", "ACCEPT"]]⟩⟩) :=
  (SetupPortMaps_not_atomic quietEngine "10.0.0.2" ⟨"tcp", ⟨80, 0⟩, ⟨8080, 0⟩⟩
    ⟨"tcp", ⟨70, 0⟩, ⟨7010, 7000⟩⟩ ⟨PortMapper.New, ⟨[], []⟩⟩ _ _ _
    (by decide) (by decide) (by decide) (by decide) (by decide) (by decide)
    (fun _ _ _ => rfl) (by rfl)).1

/-- C19: every container port that `SetupPortMaps` passes to the allocation
table lies inside the declared container range. For every list of mappings
whose loop counters fit Go's `int`, every state and every rule engine, the call
returns, and it returns what the same function with a record of its
`AllocateMap` calls returns. Every item of the record belongs to a mapping of
the list that `generateIptablesArgs` accepts, as the generator leaves it, and
its calls are at least one and at most `FromPorts.End - FromPorts.Begin + 1`,
exactly one when the host side is a single port, each with
`FromPorts.Begin <= i <= FromPorts.End` and `ToPorts.Begin <= j <= ToPorts.End`,
where `j = ToPorts.Begin + (i - FromPorts.Begin)`. The record has at most one
item for each mapping, and it starts with the calls for the first mapping when
that mapping reaches its allocation loop. In the table the call leaves, every
entry was there before or lies in range for an accepted mapping of the list. -/
theorem SetupPortMaps_container_ports_in_range (eng : RuleEngine) (containerip : String)
    (maps : List PortMapping) (w : World) (hfit : ∀ m ∈ maps, m.countersFit) :
    ∃ r log,
      SetupPortMaps false eng containerip maps w = some r ∧
      SetupPortMapsLog false eng containerip maps w = some (r, log) ∧
      (∀ e ∈ log, (∃ m0 ∈ maps, (generateIptablesArgs containerip m0).1.2.2 = none ∧
          e.1 = (generateIptablesArgs containerip m0).2) ∧ callsInRange e.1 e.2) ∧
      log.length ≤ maps.length ∧
      (∀ m rest, maps = m :: rest →
        (generateIptablesArgs containerip m).1.2.2 = none →
        PortMapExists "HYPER" (generateIptablesArgs containerip m).1.1 w.chains = false →
        PortMapUsed eng "HYPER" (generateIptablesArgs containerip m).2.Protocol
          (generateIptablesArgs containerip m).2.FromPorts.Begin
          (generateIptablesArgs containerip m).2.FromPorts.End w.chains = false →
        installsRules eng (generateIptablesArgs containerip m).1.1
          (generateIptablesArgs containerip m).1.2.1 w.chains →
        ∃ calls tail, log = ((generateIptablesArgs containerip m).2, calls) :: tail) ∧
      (∀ pr h v, r.2.2.portMapper.table pr h = some v →
        w.portMapper.table pr h = some v ∨
          ∃ m0 ∈ maps, (generateIptablesArgs containerip m0).1.2.2 = none ∧
            entryInRange containerip (generateIptablesArgs containerip m0).2 pr h v) := by
  have hS : SetupPortMapsLog false eng containerip maps w =
      setupLoopLog eng containerip maps w := by
    cases maps with
    | nil => rw [setupLoopLog]; rfl
    | cons m rest => simp [SetupPortMapsLog]
  obtain ⟨r, log, h1, h2, h3, h4, h5⟩ := setupLoopLog_calls eng containerip maps w hfit
  refine ⟨r, log, ?_, hS.trans h1, h2, h3, h4, h5⟩
  rw [← SetupPortMapsLog_fst, hS, h1]
  rfl

theorem SetupPortMaps_container_ports_in_range_witness :
    (∀ m ∈ [(⟨"tcp", ⟨80, 84⟩, ⟨8080, 0⟩⟩ : PortMapping)], m.countersFit) ∧
    ∃ r,
      SetupPortMaps false quietEngine "10.0.0.2" [⟨"tcp", ⟨80, 84⟩, ⟨8080, 0⟩⟩]
        ⟨PortMapper.New, ⟨[], []⟩⟩ = some r ∧
      SetupPortMapsLog false quietEngine "10.0.0.2" [⟨"tcp", ⟨80, 84⟩, ⟨8080, 0⟩⟩]
        ⟨PortMapper.New, ⟨[], []⟩⟩ =
          some (r, [(⟨"tcp", ⟨80, 84⟩, ⟨8080, 8080⟩⟩, [(8080, 80)])]) := by
  have hfit : ∀ m ∈ [(⟨"tcp", ⟨80, 84⟩, ⟨8080, 0⟩⟩ : PortMapping)], m.countersFit := by
    intro m hm
    rw [List.mem_singleton.mp hm]
    decide
  refine ⟨hfit, ?_⟩
  obtain ⟨r, log, h1, h2, h3, hlen, h4, -⟩ :=
    SetupPortMaps_container_ports_in_range quietEngine "10.0.0.2"
      [⟨"tcp", ⟨80, 84⟩, ⟨8080, 0⟩⟩] ⟨PortMapper.New, ⟨[], []⟩⟩ hfit
  obtain ⟨calls, tail, hlog⟩ := h4 _ [] rfl (by decide) (by decide) (by decide) (by decide)
  subst hlog
  have hgen : (generateIptablesArgs "10.0.0.2" ⟨"tcp", ⟨80, 84⟩, ⟨8080, 0⟩⟩).2 =
      ⟨"tcp", ⟨80, 84⟩, ⟨8080, 8080⟩⟩ := by decide
  rw [hgen] at h2 h3
  obtain ⟨-, -, hone, hall⟩ := (h3 _ (List.mem_cons_self _ _)).2
  have htail : tail = [] := by
    cases tail with
    | nil => rfl
    | cons t ts => simp at hlen
  subst htail
  have hcalls : calls = [(8080, 80)] := by
    match calls, hone rfl, hall with
    | [c], _, hall =>
      obtain ⟨c1, c2, -, -, c3⟩ := hall c (List.mem_singleton.mpr rfl)
      dsimp only at c1 c2 c3
      have e1 : c.1 = 8080 := by omega
      have e2 : c.2 = 80 := by omega
      obtain ⟨a, b⟩ := c
      simp only at e1 e2
      rw [e1, e2]
  subst hcalls
  exact ⟨r, h1, h2⟩

end Portmapping

